import Mathlib

/-!
Verification development for the nyc-housing-sales ETL pipeline
(extract → clean → ingest → metrics).

Python strings are modelled as lists of code points (`Str`); the case
mapping is modelled on the ASCII range, which covers the data's alphabet.
Pandas missing values (NaN) are modelled by `Option`; numeric cells are
exact rationals.  Numeric string coercion (`pd.to_numeric`) is modelled
for plain integer and decimal literals, and `pd.to_datetime` for
ISO `YYYY-MM-DD` dates; the claims under study do not depend on the
wider lexical grammar of those coercions.
-/

/-- Python strings modelled as lists of code points. -/
abbrev Str := List Char

/-- Whitespace characters recognised by Python's str.split / str.strip
(ASCII fragment: space, tab, newline, carriage return, vertical tab, form feed). -/
def isWs (c : Char) : Bool :=
  c == ' ' || c == '\t' || c == '\n' || c == '\r' || c == '\x0b' || c == '\x0c'

/-- ASCII upper-casing of one character, as done by Python's str.upper on this data. -/
def upChar (c : Char) : Char :=
  if h : 97 ≤ c.toNat ∧ c.toNat ≤ 122 then
    ⟨UInt32.ofNat' (c.toNat - 32)
       (by have hs : UInt32.size = 4294967296 := rfl; omega),
     Char.isValidChar_of_isValidCharNat _ (Or.inl (by omega))⟩
  else c

/-- Python str.lstrip (whitespace). -/
def lstrip (l : Str) : Str := l.dropWhile isWs

/-- Python str.rstrip (whitespace). -/
def rstrip (l : Str) : Str := (l.reverse.dropWhile isWs).reverse

/-- Python str.strip (whitespace on both ends). -/
def pyStrip (l : Str) : Str := lstrip (rstrip l)

/-- Python str.upper over a whole string (ASCII model). -/
def pyUpper (l : Str) : Str := l.map upChar

/-- Worker for Python str.split() with no separator: `acc` holds the
current word reversed; words are flushed at whitespace boundaries. -/
def splitWsGo (acc : Str) : Str → List Str
  | [] => if acc = [] then [] else [acc.reverse]
  | c :: cs =>
      if isWs c then
        if acc = [] then splitWsGo [] cs else acc.reverse :: splitWsGo [] cs
      else splitWsGo (c :: acc) cs

/-- Python str.split() with no separator: splits on whitespace runs, dropping empties. -/
def splitWs (l : Str) : List Str := splitWsGo [] l

/-- Python ' '.join. -/
def joinSp : List Str → Str
  | [] => []
  | [w] => w
  | w :: ws => w ++ ' ' :: joinSp ws

/-- Replacement of '_' by ' ' on one character (str.replace). -/
def undToSp (c : Char) : Char := if c == '_' then ' ' else c

/-- DataCleaner._norm_neighborhood: `' '.join(str(val).upper().replace('_',' ').strip().split())`. -/
def normNeighborhood (v : Str) : Str :=
  joinSp (splitWs (pyStrip ((v.map upChar).map undToSp)))

/-- Collapse of every maximal whitespace run to a single space (the flag
records whether the previous character was whitespace). -/
def collapseWsAfter (prevWs : Bool) : Str → Str
  | [] => []
  | c :: cs =>
      if isWs c then
        if prevWs then collapseWsAfter true cs else ' ' :: collapseWsAfter true cs
      else c :: collapseWsAfter false cs

/-- Neighborhood normalization as the specification words it: uppercase,
underscores to spaces, strip leading/trailing whitespace, collapse internal
whitespace runs to single spaces. -/
def describedNormNeighborhood (v : Str) : Str :=
  collapseWsAfter false (pyStrip ((v.map upChar).map undToSp))

/-- Numeric value of a decimal digit character. -/
def digitVal (c : Char) : Option Nat :=
  if 48 ≤ c.toNat ∧ c.toNat ≤ 57 then some (c.toNat - 48) else none

/-- Accumulating decimal reader; fails on any non-digit. -/
def parseNatGo (acc : Nat) : Str → Option Nat
  | [] => some acc
  | c :: cs =>
      match digitVal c with
      | some d => parseNatGo (acc * 10 + d) cs
      | none => none

/-- Nonempty all-digit string to Nat. -/
def parseNatDigits : Str → Option Nat
  | [] => none
  | l => parseNatGo 0 l

/-- pd.to_numeric followed by Int64 cast, modelled for integer literals:
optional sign, digits, surrounding whitespace; anything else is missing. -/
def parseIntStr (l : Str) : Option Int :=
  match pyStrip l with
  | '-' :: rest => (parseNatDigits rest).map (fun n => -(n : Int))
  | '+' :: rest => (parseNatDigits rest).map (fun n => (n : Int))
  | t => (parseNatDigits t).map (fun n => (n : Int))

/-- pd.to_numeric modelled for decimal literals: optional sign, digits with
an optional fractional part; anything else is missing. -/
def parseRatStr (l : Str) : Option ℚ :=
  let t := pyStrip l
  let core : Str → Option ℚ := fun u =>
    match u.splitOn '.' with
    | [ip] => (parseNatDigits ip).map (fun n => (n : ℚ))
    | [ip, fp] =>
        if ip = [] ∧ fp = [] then none
        else
          match (if ip = [] then some 0 else parseNatDigits ip),
                (if fp = [] then some 0 else parseNatDigits fp) with
          | some a, some b => some ((a : ℚ) + (b : ℚ) / ((10 : ℚ) ^ fp.length))
          | _, _ => none
    | _ => none
  match t with
  | '-' :: rest => (core rest).map (fun q => -q)
  | '+' :: rest => core rest
  | u => core u

/-- pd.to_datetime modelled for ISO dates `YYYY-MM-DD`; invalid dates are missing. -/
def parseDate (l : Str) : Option (Int × Nat × Nat) :=
  match (pyStrip l).splitOn '-' with
  | [ys, ms, ds] =>
      match parseNatDigits ys, parseNatDigits ms, parseNatDigits ds with
      | some y, some m, some d =>
          if 1 ≤ m ∧ m ≤ 12 ∧ 1 ≤ d ∧ d ≤ 31 then some ((y : Int), m, d) else none
      | _, _, _ => none
  | _ => none

/-- Strict code-point order on strings, as Python compares them. -/
def strLtB : Str → Str → Bool
  | [], [] => false
  | [], _ :: _ => true
  | _ :: _, [] => false
  | a :: as, b :: bs => if a < b then true else if b < a then false else strLtB as bs

/-- Worker for first-occurrence deduplication: keeps a row iff its key was not seen yet. -/
def dedupGo {α β : Type} [DecidableEq β] (key : α → β) (seen : List β) : List α → List α
  | [] => []
  | x :: xs =>
      if key x ∈ seen then dedupGo key seen xs
      else x :: dedupGo key (key x :: seen) xs

/-- drop_duplicates(subset, keep='first'): first occurrence of each key survives. -/
def dedupKeep1 {α β : Type} [DecidableEq β] (key : α → β) (l : List α) : List α :=
  dedupGo key [] l

/-- Sum of a list of rationals. -/
def sumQ : List ℚ → ℚ
  | [] => 0
  | x :: xs => x + sumQ xs

/-- Pandas mean of a column (NaN on the empty group). -/
def meanQ (l : List ℚ) : Option ℚ :=
  if l = [] then none else some (sumQ l / (l.length : ℚ))

/-- Pandas min aggregation. -/
def minQ (l : List ℚ) : Option ℚ :=
  match l.insertionSort (· ≤ ·) with
  | [] => none
  | x :: _ => some x

/-- Pandas max aggregation. -/
def maxQ (l : List ℚ) : Option ℚ :=
  match (l.insertionSort (· ≤ ·)).reverse with
  | [] => none
  | x :: _ => some x

/-- Pandas median: middle element of the sorted values, or the average of the
two middle elements (NaN on the empty group). -/
def pandasMedian (l : List ℚ) : Option ℚ :=
  let xs := l.insertionSort (· ≤ ·)
  let n := xs.length
  if n = 0 then none
  else if n % 2 = 1 then some (xs.getD (n / 2) 0)
  else some ((xs.getD (n / 2 - 1) 0 + xs.getD (n / 2) 0) / 2)

/-- Pandas Series.quantile with linear interpolation: on the sorted values
`xs` of length n, the quantile q sits at position q*(n-1) and is linearly
interpolated between the two neighbouring order statistics (NaN when empty). -/
def quantileLinear (q : ℚ) (vals : List ℚ) : Option ℚ :=
  let xs := vals.insertionSort (· ≤ ·)
  let n := xs.length
  if n = 0 then none
  else
    let pos : ℚ := q * ((n : ℚ) - 1)
    let i : Nat := (Int.toNat ⌊pos⌋)
    let g : ℚ := pos - (⌊pos⌋ : ℚ)
    let a := xs.getD i 0
    let b := xs.getD (min (i + 1) (n - 1)) 0
    some (a + g * (b - a))

/-! ## Extract stage (DataExtractor) -/

/-- Spreadsheet cell: `none` is a NaN produced by the reader for an empty cell. -/
abbrev Cell := Option Str

/-- Python str() of a cell, as applied by the header scan (str(nan) is 'nan'). -/
def cellStr : Cell → Str
  | none => ("nan").toList
  | some s => s

/-- Raw spreadsheet contents: a matrix of cells. -/
abbrev XFile := List (List Cell)

/-- Case-insensitive full match helper (the pattern is given in upper case). -/
def eqCI (x : Str) (pat : Str) : Bool := pyUpper x == pat

/-- Case-insensitive literal-prefix test (the pattern is given in upper case). -/
def ciHasPrefix (pat : Str) (x : Str) : Bool := List.isPrefixOf pat (pyUpper x)

/-- re.sub(r'\n+', ' ', c): each maximal newline run becomes one space. -/
def collapseNlAfter (prevNl : Bool) : Str → Str
  | [] => []
  | c :: cs =>
      if c == '\n' then
        if prevNl then collapseNlAfter true cs else ' ' :: collapseNlAfter true cs
      else c :: collapseNlAfter false cs

/-- re.sub(' {2,}', ' ', c): each maximal space run becomes one space. -/
def collapseSpAfter (prevSp : Bool) : Str → Str
  | [] => []
  | c :: cs =>
      if c == ' ' then
        if prevSp then collapseSpAfter true cs else ' ' :: collapseSpAfter true cs
      else c :: collapseSpAfter false cs

/-- Worker for re.sub(r'\s*W\s*', ' W', input) for a literal word W that starts
with a non-whitespace character: at each position the regex matches iff the word
follows the maximal whitespace run there, and the match greedily absorbs the
whitespace on both sides.  The fuel argument is the input length, which bounds
the recursion; every step consumes at least one character, so the fuel never
runs out on the calls made by `subWordAroundWs`. -/
def subWordWsGo (w : Str) : Nat → Str → Str
  | 0, l => l
  | _ + 1, [] => []
  | fuel + 1, c :: cs =>
      let aw := (c :: cs).dropWhile isWs
      if List.isPrefixOf w aw then
        (' ' :: w) ++ subWordWsGo w fuel ((aw.drop w.length).dropWhile isWs)
      else c :: subWordWsGo w fuel cs

/-- re.sub(r'\s*W\s*', ' W', input) for a literal non-whitespace word W. -/
def subWordAroundWs (w : Str) (l : Str) : Str := subWordWsGo w l.length l

/-- re.sub('BUILDING CLASS\s*AT TIME OF SALE', 'BUILDING CLASS AT TIME OF SALE',
c, IGNORECASE), with the same fuel discipline as `subWordWsGo`. -/
def subBldgTimeGo : Nat → Str → Str
  | 0, l => l
  | _ + 1, [] => []
  | fuel + 1, c :: cs =>
      if ciHasPrefix (("BUILDING CLASS").toList) (c :: cs) then
        let rest := (c :: cs).drop 14
        let rest2 := rest.dropWhile isWs
        if ciHasPrefix (("AT TIME OF SALE").toList) rest2 then
          ("BUILDING CLASS AT TIME OF SALE").toList ++ subBldgTimeGo fuel (rest2.drop 15)
        else c :: subBldgTimeGo fuel cs
      else c :: subBldgTimeGo fuel cs

/-- DataExtractor.normalize_column: strip, fix known header variants by
case-insensitive full match, collapse newline and double-space runs, normalize
the UNITS / SQUARE FEET / BUILDING CLASS AT TIME OF SALE spacing, strip again.
A dot in the regexes 'TAX CLASS AS.*' and 'BUILDING CLASS AS.*' does not match
a newline, hence the newline-freedom condition on the remainder. -/
def normalizeColumn (col : Str) : Str :=
  let c := pyStrip col
  if eqCI c (("EASEMENT").toList) || eqCI c (("EASE-MENT").toList) then ("EASEMENT").toList
  else if ciHasPrefix (("TAX CLASS AS").toList) c && !((c.drop 12).contains '\n') then
    ("TAX CLASS AT PRESENT").toList
  else if ciHasPrefix (("BUILDING CLASS AS").toList) c && !((c.drop 17).contains '\n') then
    ("BUILDING CLASS AT PRESENT").toList
  else
    let c1 := collapseNlAfter false c
    let c2 := collapseSpAfter false c1
    let c3 := subWordAroundWs (("UNITS").toList) c2
    let c4 := subWordAroundWs (("SQUARE FEET").toList) c3
    let c5 := subBldgTimeGo c4.length c4
    pyStrip c5

/-- DataExtractor.REQUIRED_COLUMNS, in their fixed order. -/
def REQUIRED_COLUMNS : List Str :=
  [("BOROUGH").toList, ("NEIGHBORHOOD").toList, ("BUILDING CLASS CATEGORY").toList,
   ("TAX CLASS AT PRESENT").toList, ("BLOCK").toList, ("LOT").toList, ("EASEMENT").toList,
   ("BUILDING CLASS AT PRESENT").toList, ("ADDRESS").toList, ("APARTMENT NUMBER").toList,
   ("ZIP CODE").toList, ("RESIDENTIAL UNITS").toList, ("COMMERCIAL UNITS").toList,
   ("TOTAL UNITS").toList, ("LAND SQUARE FEET").toList, ("GROSS SQUARE FEET").toList,
   ("YEAR BUILT").toList, ("TAX CLASS AT TIME OF SALE").toList,
   ("BUILDING CLASS AT TIME OF SALE").toList, ("SALE PRICE").toList, ("SALE DATE").toList]

/-- Sentinel test for the header row: the first three cells, stripped and
upper-cased, read BOROUGH, NEIGHBORHOOD, BUILDING CLASS CATEGORY. -/
def isHeaderTriple (row : List Cell) : Bool :=
  (row.take 3).map (fun x => pyUpper (pyStrip (cellStr x))) ==
    [("BOROUGH").toList, ("NEIGHBORHOOD").toList, ("BUILDING CLASS CATEGORY").toList]

/-- Index of the first header row, as found by the scan in DataExtractor.extract. -/
def headerIdxOf (f : XFile) : Option Nat := f.findIdx? isHeaderTriple

/-- Errors recorded by DataExtractor.extract for a single file. -/
inductive ExtractErr
  | headerNotFound (f : XFile)
  | columnMismatch (f : XFile) (cols : List Str)
deriving DecidableEq

/-- Per-file CSV written by DataExtractor.extract on success. -/
structure ExtractOut where
  cols : List Str
  rows : List (List Cell)
deriving DecidableEq

/-- Per-file step of DataExtractor.extract: locate the header row, re-read
with it, normalize the column names, compare them with the required schema,
and on success drop the fully empty rows. -/
def processFile (f : XFile) : Except ExtractErr ExtractOut :=
  match headerIdxOf f with
  | none => Except.error (ExtractErr.headerNotFound f)
  | some i =>
      match f.drop i with
      | [] => Except.error (ExtractErr.headerNotFound f)
      | hdr :: dataRows =>
          let cols := hdr.map (fun x => normalizeColumn (cellStr x))
          if cols = REQUIRED_COLUMNS then
            Except.ok ⟨cols, dataRows.filter (fun row => !(row.all (fun x => x.isNone)))⟩
          else Except.error (ExtractErr.columnMismatch f cols)

/-- Error recorded for a file, if any. -/
def errOf (f : XFile) : Option ExtractErr :=
  match processFile f with
  | Except.error e => some e
  | Except.ok _ => none

/-- CSV written for a file, if any. -/
def outOf (f : XFile) : Option ExtractOut :=
  match processFile f with
  | Except.error _ => none
  | Except.ok o => some o

/-- Loop of DataExtractor.extract: writes the good files and collects the
errors of the bad ones, in file order. -/
def extractGo : List XFile → List ExtractOut × List ExtractErr
  | [] => ([], [])
  | f :: fs =>
      let rest := extractGo fs
      match processFile f with
      | Except.ok o => (o :: rest.1, rest.2)
      | Except.error e => (rest.1, e :: rest.2)

/-- DataExtractor.extract over a directory of spreadsheets: after all files
are processed, raise the aggregated error list iff any error was recorded.
The ok value models the set of per-file CSVs written to the target directory
(the Python function's return value proper is the last frame read; the CSVs,
which are what the rest of the pipeline consumes, are the meaningful output). -/
def extract (files : List XFile) : Except (List ExtractErr) (List ExtractOut) :=
  let p := extractGo files
  if p.2 = [] then Except.ok p.1 else Except.error p.2

/-- DataExtractor.load: concatenate every CSV in a directory; with no CSV
files the result is the column-less empty frame pd.DataFrame(), modelled
as `none` (a `some` result always carries the common 21-column schema). -/
def deLoad {α : Type} (files : List (List α)) : Option (List α) :=
  if files.isEmpty then none else some files.flatten

/-! ## Clean stage (DataCleaner) -/

/-- Row of the concatenated raw CSVs, keyed by the columns the cleaner
touches; `rest` stands for the remaining schema columns, which the cleaner
carries through unchanged (up to the final string strip). -/
structure RawRow where
  borough : Str
  neighborhood : Str
  buildingClass : Str
  block : Str
  lot : Str
  address : Str
  apartment : Str
  zip : Str
  saleDate : Str
  salePrice : Str
  rest : Str
deriving DecidableEq

/-- Composite deduplication key of DataCleaner.clean step 1, in source order:
borough, neighborhood, building class category, block, lot, address,
apartment number, sale date, zip code, sale price. -/
structure RawKey where
  borough : Str
  neighborhood : Str
  buildingClass : Str
  block : Str
  lot : Str
  address : Str
  apartment : Str
  saleDate : Str
  zip : Str
  salePrice : Str
deriving DecidableEq

/-- Projection of a row to the composite deduplication key. -/
def rawKey (r : RawRow) : RawKey :=
  ⟨r.borough, r.neighborhood, r.buildingClass, r.block, r.lot, r.address,
   r.apartment, r.saleDate, r.zip, r.salePrice⟩

/-- DataCleaner._is_header_row: the borough cell reads BOROUGH or the
neighborhood cell reads NEIGHBORHOOD (stripped, upper-cased). -/
def isHeaderRow (r : RawRow) : Bool :=
  pyUpper (pyStrip r.borough) == ("BOROUGH").toList ||
    pyUpper (pyStrip r.neighborhood) == ("NEIGHBORHOOD").toList

/-- Row after the type-coercion steps 3-6 of DataCleaner.clean: borough
coerced to a nullable integer, neighborhood normalized, sale price a positive
numeric, sale date parsed with the year extracted. -/
structure MidRow where
  borough : Option Int
  neighborhood : Str
  buildingClass : Str
  block : Str
  lot : Str
  address : Str
  apartment : Str
  zip : Str
  rest : Str
  saleDate : Int × Nat × Nat
  year : Int
  salePrice : ℚ
deriving DecidableEq

/-- Steps 3-6 of DataCleaner.clean on one row: borough to nullable Int
(column-wide, never drops a row), neighborhood normalization, the strict
sale-price filter (rows whose price does not coerce to a positive numeric
are removed), and the sale-date parse (rows with invalid dates are dropped),
with the sale year derived from the date. -/
def toMid (r : RawRow) : Option MidRow :=
  match parseRatStr r.salePrice with
  | none => none
  | some p =>
      if 0 < p then
        match parseDate r.saleDate with
        | none => none
        | some dt =>
            some { borough := parseIntStr r.borough
                   neighborhood := normNeighborhood r.neighborhood
                   buildingClass := r.buildingClass
                   block := r.block
                   lot := r.lot
                   address := r.address
                   apartment := r.apartment
                   zip := r.zip
                   rest := r.rest
                   saleDate := dt
                   year := dt.1
                   salePrice := p }
      else none

/-- Step 7 of DataCleaner.clean: the fixed borough code-to-name map; codes
outside 1-5 (and missing codes) map to missing. -/
def boroughNameOf (c : Option Int) : Option Str :=
  if c = some 1 then some (("MANHATTAN").toList)
  else if c = some 2 then some (("BRONX").toList)
  else if c = some 3 then some (("BROOKLYN").toList)
  else if c = some 4 then some (("QUEENS").toList)
  else if c = some 5 then some (("STATEN ISLAND").toList)
  else none

/-- Sale prices of the (borough name, neighborhood, building class, year)
group of DataCleaner._add_stats. -/
def statPrices (mids : List MidRow) (b : Str) (n : Str) (cl : Str) (y : Int) : List ℚ :=
  (mids.filter (fun m =>
    boroughNameOf m.borough == some b && m.neighborhood == n &&
      m.buildingClass == cl && m.year == y)).map (fun m => m.salePrice)

/-- Sale prices of the (borough name, year) group of step 9 of DataCleaner.clean. -/
def medPrices (mids : List MidRow) (b : Str) (y : Int) : List ℚ :=
  (mids.filter (fun m => boroughNameOf m.borough == some b && m.year == y)).map
    (fun m => m.salePrice)

/-- Distinct years of a borough, ascending: the year keys of the borough's
contiguous run in the (borough name, year)-sorted median frame of step 9. -/
def yearsOfBorough (mids : List MidRow) (b : Str) : List Int :=
  (dedupKeep1 id ((mids.filter (fun m => boroughNameOf m.borough == some b)).map
    (fun m => m.year))).insertionSort (fun a b => a ≤ b)

/-- One cell of `pct_change() * 100` followed by `fillna(0)`: the first row of
a group, and any comparison involving a missing median, become 0. -/
def pctChangeVal (m : Option ℚ) (pm : Option ℚ) : ℚ :=
  match pm, m with
  | some p, some a => (a / p - 1) * 100
  | _, _ => 0

/-- Walk of pct_change along one borough's year-sorted median series. -/
def yoyWalk (med : Int → Option ℚ) : Option ℚ → List Int → List (Int × ℚ)
  | _, [] => []
  | prevMed, y :: ys => (y, pctChangeVal (med y) prevMed) :: yoyWalk med (med y) ys

/-- MEDIAN PRICE YOY PCT column of step 9, for one borough, keyed by year. -/
def yoySeries (mids : List MidRow) (b : Str) : List (Int × ℚ) :=
  yoyWalk (fun y => pandasMedian (medPrices mids b y)) none (yearsOfBorough mids b)

/-- Cleaned row as returned (and written) by DataCleaner.clean.  After the
final step 11 every object-dtype column has been passed through
astype(str).str.strip(), which in particular turns a missing borough name
into the literal string 'nan'. -/
structure CRow where
  borough : Option Int
  neighborhood : Str
  buildingClass : Str
  block : Str
  lot : Str
  address : Str
  apartment : Str
  zip : Str
  rest : Str
  saleDate : Int × Nat × Nat
  year : Int
  salePrice : ℚ
  boroughName : Str
  minSalePrice : Option ℚ
  avgSalePrice : Option ℚ
  medianSalePrice : Option ℚ
  maxSalePrice : Option ℚ
  numSales : Option Int
  medianPriceYoyPct : Option ℚ
deriving DecidableEq

/-- Aggregate of _add_stats attached to one row by the left merge of step 8:
rows whose borough name is missing fall outside every group and receive NaN. -/
def statOf (mids : List MidRow) (m : MidRow) (f : List ℚ → Option ℚ) : Option ℚ :=
  match boroughNameOf m.borough with
  | some b => f (statPrices mids b m.neighborhood m.buildingClass m.year)
  | none => none

/-- NUM SALES attached to one row by the left merge of step 8. -/
def numSalesOf (mids : List MidRow) (m : MidRow) : Option Int :=
  match boroughNameOf m.borough with
  | some b => some ((statPrices mids b m.neighborhood m.buildingClass m.year).length : Int)
  | none => none

/-- MEDIAN PRICE YOY PCT attached to one row by the left merge of step 10. -/
def yoyOf (mids : List MidRow) (m : MidRow) : Option ℚ :=
  match boroughNameOf m.borough with
  | some b => (yoySeries mids b).lookup m.year
  | none => none

/-- Steps 7-11 of DataCleaner.clean for one row: borough name mapping, the
two left merges, and the final astype(str).str.strip() over the string-typed
columns (numeric, date and Int64 columns are untouched by it). -/
def finalizeRow (mids : List MidRow) (m : MidRow) : CRow :=
  { borough := m.borough
    neighborhood := pyStrip m.neighborhood
    buildingClass := pyStrip m.buildingClass
    block := pyStrip m.block
    lot := pyStrip m.lot
    address := pyStrip m.address
    apartment := pyStrip m.apartment
    zip := pyStrip m.zip
    rest := pyStrip m.rest
    saleDate := m.saleDate
    year := m.year
    salePrice := m.salePrice
    boroughName :=
      match boroughNameOf m.borough with
      | some b => pyStrip b
      | none => ("nan").toList
    minSalePrice := statOf mids m minQ
    avgSalePrice := statOf mids m meanQ
    medianSalePrice := statOf mids m pandasMedian
    maxSalePrice := statOf mids m maxQ
    numSales := numSalesOf mids m
    medianPriceYoyPct := yoyOf mids m }

/-- Body of DataCleaner.clean on the concatenated raw table. -/
def cleanRows (l : List RawRow) : List CRow :=
  let d1 := dedupKeep1 rawKey l
  let d2 := d1.filter (fun r => !(isHeaderRow r))
  let mids := d2.filterMap toMid
  mids.map (finalizeRow mids)

/-- DataCleaner.clean over a source directory: with no CSV files the loaded
frame is the column-less pd.DataFrame(), on which step 1's
drop_duplicates(subset=...) raises a KeyError for the missing key columns. -/
def clean (files : List (List RawRow)) : Except Str (List CRow) :=
  match deLoad files with
  | none =>
      Except.error (("KeyError: drop_duplicates subset columns absent from the empty frame").toList)
  | some rows => Except.ok (cleanRows rows)

/-! ## Ingest stage (DataIngester) -/

/-- Row of a cleaned CSV restricted to the five columns DataIngester.ingest
selects; the sale price is re-coerced with to_numeric, so it may be missing. -/
structure IngRow where
  boroughName : Str
  neighborhood : Str
  buildingClass : Str
  year : Int
  salePrice : Option ℚ
deriving DecidableEq

/-- Grouping key (borough name, neighborhood, building class category, year). -/
structure K4 where
  boroughName : Str
  neighborhood : Str
  buildingClass : Str
  year : Int
deriving DecidableEq

/-- Projection of an ingest row to its grouping key. -/
def ingKey (r : IngRow) : K4 :=
  ⟨r.boroughName, r.neighborhood, r.buildingClass, r.year⟩

/-- Lexicographic group-key order used by pandas groupby when sorting keys. -/
def k4LeB (a b : K4) : Bool :=
  if a.boroughName == b.boroughName then
    if a.neighborhood == b.neighborhood then
      if a.buildingClass == b.buildingClass then decide (a.year ≤ b.year)
      else strLtB a.buildingClass b.buildingClass
    else strLtB a.neighborhood b.neighborhood
  else strLtB a.boroughName b.boroughName

/-- Row of an ingested (aggregated) CSV: NUM SALES counts the group's
non-missing prices; AVG and MEDIAN aggregate them (NaN when none). -/
structure IRow where
  boroughName : Str
  neighborhood : Str
  buildingClass : Str
  year : Int
  numSales : Int
  avgSalePrice : Option ℚ
  medianSalePrice : Option ℚ
deriving DecidableEq

/-- DataIngester.ingest: with no source CSV the empty frame is returned;
otherwise the concatenated rows are grouped by (borough name, neighborhood,
building class category, year) with count/mean/median of the sale price.
The split of the result into one CSV per year changes no values. -/
def ingest (files : List (List IngRow)) : Option (List IRow) :=
  if files.isEmpty then none
  else
    some
      (let rows := files.flatten
       let keys := (dedupKeep1 id (rows.map ingKey)).insertionSort (fun a b => k4LeB a b = true)
       keys.map (fun k =>
         let g := (rows.filter (fun r => ingKey r == k)).filterMap (fun r => r.salePrice)
         { boroughName := k.boroughName, neighborhood := k.neighborhood,
           buildingClass := k.buildingClass, year := k.year,
           numSales := (g.length : Int), avgSalePrice := meanQ g,
           medianSalePrice := pandasMedian g }))

/-! ## Metrics stage (MetricsCalculator) -/

/-- Stable (neighborhood, year) sort key used by _compute_market_breadth. -/
def nyLeB (a b : IRow) : Bool :=
  if a.neighborhood == b.neighborhood then decide (a.year ≤ b.year)
  else strLtB a.neighborhood b.neighborhood

/-- df.sort_values(['NEIGHBORHOOD', 'YEAR']): a stable lexicographic sort
(pandas uses np.lexsort for a multi-column key, which is stable). -/
def sortNY (rows : List IRow) : List IRow :=
  rows.insertionSort (fun a b => nyLeB a b = true)

/-- groupby('NEIGHBORHOOD')['MEDIAN SALE PRICE'].diff() along the sorted
frame: each row's value minus the previous row's value within the same
neighborhood; the first row of a neighborhood, and any comparison with a
missing median, give NaN. -/
def diffWalk : Option (Str × Option ℚ) → List IRow → List (IRow × Option ℚ)
  | _, [] => []
  | prev, r :: rs =>
      let d : Option ℚ :=
        match prev with
        | some (n, pm) =>
            if n == r.neighborhood then
              match pm, r.medianSalePrice with
              | some p, some m => some (m - p)
              | _, _ => none
            else none
        | none => none
      (r, d) :: diffWalk (some (r.neighborhood, r.medianSalePrice)) rs

/-- Row of the market-breadth frame. -/
structure BRow where
  year : Int
  marketBreadth : Option ℚ
  numNeighborhoods : Int
deriving DecidableEq

/-- Body of MetricsCalculator._compute_market_breadth on the frame read from
the data/p directory: sort by (neighborhood, year), diff the median per
neighborhood, keep the valid (non-missing) diffs, and per year take the
fraction of positive diffs (missing for a year with no valid diff, via the
unfilled map) and the count of valid rows (0 for such a year, via fillna). -/
def breadthRowOf (valid : List (IRow × Option ℚ)) (y : Int) : BRow :=
  let vy := valid.filter (fun p => p.1.year == y)
  { year := y
    marketBreadth :=
      if vy.isEmpty then none
      else some (((vy.countP (fun p => decide (0 < p.2.getD 0))) : ℚ) / (vy.length : ℚ))
    numNeighborhoods := (vy.length : Int) }

/-- Body of MetricsCalculator._compute_market_breadth on the frame read from
the data/p directory: sort by (neighborhood, year), diff the median per
neighborhood, keep the valid (non-missing) diffs, and build one row per year. -/
def breadthTable (dataP : List (List IRow)) : List BRow :=
  let df := sortNY dataP.flatten
  let diffs := diffWalk none df
  let valid := diffs.filter (fun p => p.2.isSome)
  let years := (dedupKeep1 id (df.map (fun r => r.year))).insertionSort (fun a b => a ≤ b)
  years.map (breadthRowOf valid)

/-- MetricsCalculator._compute_market_breadth: the df argument is unused —
the frame is re-read from the hardcoded 'data/p' directory. -/
def computeMarketBreadth (_df : List IRow) (dataP : List (List IRow)) : List BRow :=
  breadthTable dataP

/-- Row of the summary matrix written by MetricsCalculator.compute. -/
structure MRow where
  boroughName : Str
  year : Int
  affordabilityIndex : Option ℚ
  marketBreadth : Option ℚ
  numNeighborhoods : Option Int
deriving DecidableEq

/-- Grouping key (borough name, year). -/
structure K2 where
  boroughName : Str
  year : Int
deriving DecidableEq

/-- Lexicographic order on (borough name, year) group keys. -/
def k2LeB (a b : K2) : Bool :=
  if a.boroughName == b.boroughName then decide (a.year ≤ b.year)
  else strLtB a.boroughName b.boroughName

/-- Affordability frame of MetricsCalculator.compute: for each
(borough name, year) group, the 25th linear-interpolation percentile of the
group's non-missing MEDIAN SALE PRICE values. -/
def affordability (rows : List IRow) : List (K2 × Option ℚ) :=
  let keys := (dedupKeep1 id (rows.map (fun r => K2.mk r.boroughName r.year))).insertionSort
    (fun a b => k2LeB a b = true)
  keys.map (fun k =>
    (k, quantileLinear (1 / 4)
      ((rows.filter (fun r => r.boroughName == k.boroughName && r.year == k.year)).filterMap
        (fun r => r.medianSalePrice))))

/-- MetricsCalculator.compute: with no source CSV the empty frame is
returned; otherwise the affordability frame is left-merged on YEAR with the
market-breadth frame (whose data comes from the hardcoded data/p directory);
years absent from the breadth frame receive missing breadth columns. -/
def compute (src : List (List IRow)) (dataP : List (List IRow)) : Option (List MRow) :=
  if src.isEmpty then none
  else
    some
      (let df := src.flatten
       let aff := affordability df
       let bt := computeMarketBreadth df dataP
       aff.map (fun p =>
         match bt.find? (fun b => b.year == p.1.year) with
         | some b =>
             { boroughName := p.1.boroughName, year := p.1.year,
               affordabilityIndex := p.2, marketBreadth := b.marketBreadth,
               numNeighborhoods := some b.numNeighborhoods }
         | none =>
             { boroughName := p.1.boroughName, year := p.1.year,
               affordabilityIndex := p.2, marketBreadth := none,
               numNeighborhoods := none }))

/-! ## Deduplication lemmas -/

/-- Filtering the deduplicated list on one key yields the first input
occurrence of that key (nothing if the key was already seen). -/
theorem dedupGo_filter {α β : Type} [DecidableEq β] (key : α → β) (k : β) :
    ∀ (l : List α) (seen : List β),
      (dedupGo key seen l).filter (fun r => key r == k) =
        if k ∈ seen then [] else (l.find? (fun r => key r == k)).toList := by
  intro l
  induction l with
  | nil => intro seen; simp [dedupGo]
  | cons x xs ih =>
      intro seen
      by_cases hx : key x ∈ seen
      · by_cases hk : key x = k
        · subst hk
          simp [dedupGo, hx, ih]
        · have hfind : (x :: xs).find? (fun r => key r == k) = xs.find? (fun r => key r == k) := by
            apply List.find?_cons_of_neg
            simp [hk]
          simp only [dedupGo, if_pos hx, ih, hfind]
      · simp only [dedupGo, if_neg hx]
        by_cases hk : key x = k
        · subst hk
          have hfind : (x :: xs).find? (fun r => key r == key x) = some x := by
            apply List.find?_cons_of_pos
            simp
          rw [List.filter_cons_of_pos (by simp), ih]
          simp [hfind, hx]
        · have hfind : (x :: xs).find? (fun r => key r == k) = xs.find? (fun r => key r == k) := by
            apply List.find?_cons_of_neg
            simp [hk]
          rw [List.filter_cons_of_neg (by simp [hk]), ih, hfind]
          by_cases hks : k ∈ seen
          · rw [if_pos hks, if_pos (List.mem_cons_of_mem _ hks)]
          · rw [if_neg hks, if_neg ?hnotin]
            case hnotin =>
              intro hc
              rcases List.mem_cons.mp hc with h | h
              · exact hk h.symm
              · exact hks h

/-- Membership in the deduplicated list of keys. -/
theorem mem_dedupGo_id {β : Type} [DecidableEq β] :
    ∀ (l : List β) (seen : List β) (a : β),
      a ∈ dedupGo id seen l ↔ (a ∈ l ∧ a ∉ seen) := by
  intro l
  induction l with
  | nil => intro seen a; simp [dedupGo]
  | cons x xs ih =>
      intro seen a
      by_cases hx : x ∈ seen
      · rw [show dedupGo id seen (x :: xs) = dedupGo id seen xs by simp [dedupGo, hx], ih]
        constructor
        · rintro ⟨h1, h2⟩; exact ⟨List.mem_cons_of_mem _ h1, h2⟩
        · rintro ⟨h1, h2⟩
          rcases List.mem_cons.mp h1 with rfl | h1
          · exact absurd hx h2
          · exact ⟨h1, h2⟩
      · rw [show dedupGo id seen (x :: xs) = x :: dedupGo id (x :: seen) xs by
            simp [dedupGo, hx]]
        constructor
        · intro hmem
          rcases List.mem_cons.mp hmem with rfl | hmem
          · exact ⟨List.mem_cons_self _ _, hx⟩
          · obtain ⟨h1, h2⟩ := (ih (x :: seen) a).mp hmem
            exact ⟨List.mem_cons_of_mem _ h1,
              fun hc => h2 (List.mem_cons_of_mem _ hc)⟩
        · rintro ⟨h1, h2⟩
          by_cases hax : a = x
          · exact hax ▸ List.mem_cons_self _ _
          · rcases List.mem_cons.mp h1 with rfl | h1
            · exact absurd rfl hax
            · refine List.mem_cons_of_mem _ ((ih (x :: seen) a).mpr ⟨h1, fun hc => ?_⟩)
              rcases List.mem_cons.mp hc with h | h
              · exact hax h
              · exact h2 h

/-- Membership in the deduplicated key list equals membership in the input. -/
theorem mem_dedupKeep1_id {β : Type} [DecidableEq β] (l : List β) (a : β) :
    a ∈ dedupKeep1 id l ↔ a ∈ l := by
  rw [dedupKeep1, mem_dedupGo_id]
  simp

/-- The deduplicated key list has no duplicates. -/
theorem nodup_dedupGo_id {β : Type} [DecidableEq β] :
    ∀ (l : List β) (seen : List β), (dedupGo id seen l).Nodup := by
  intro l
  induction l with
  | nil => intro seen; simp [dedupGo]
  | cons x xs ih =>
      intro seen
      by_cases hx : x ∈ seen
      · rw [show dedupGo id seen (x :: xs) = dedupGo id seen xs by simp [dedupGo, hx]]
        exact ih seen
      · rw [show dedupGo id seen (x :: xs) = x :: dedupGo id (x :: seen) xs by
            simp [dedupGo, hx]]
        refine List.nodup_cons.mpr ⟨fun hc => ?_, ih _⟩
        have := (mem_dedupGo_id xs (x :: seen) x).mp hc
        exact this.2 (List.mem_cons_self _ _)

/-- The deduplicated key list has no duplicates. -/
theorem nodup_dedupKeep1_id {β : Type} [DecidableEq β] (l : List β) :
    (dedupKeep1 id l).Nodup :=
  nodup_dedupGo_id l []

/-- C8: if two rows of the raw input agree on the ten composite-key columns,
exactly one of them survives the deduplication step of DataCleaner.clean,
namely the first occurrence of that key in input order. -/
theorem c8_dedup_first_survives
    (l : List RawRow) (i j : Nat) (hi : i < l.length) (hj : j < l.length)
    (hij : i < j) (hkeys : rawKey (l.get ⟨i, hi⟩) = rawKey (l.get ⟨j, hj⟩)) :
    ∃ r0, l.find? (fun r => rawKey r == rawKey (l.get ⟨i, hi⟩)) = some r0 ∧
      (dedupKeep1 rawKey l).filter (fun r => rawKey r == rawKey (l.get ⟨i, hi⟩)) = [r0] := by
  have hmem : l.get ⟨i, hi⟩ ∈ l := List.get_mem l i hi
  have hsome : (l.find? (fun r => rawKey r == rawKey (l.get ⟨i, hi⟩))).isSome := by
    rw [List.find?_isSome]
    exact ⟨l.get ⟨i, hi⟩, hmem, by simp⟩
  obtain ⟨r0, hr0⟩ := Option.isSome_iff_exists.mp hsome
  refine ⟨r0, hr0, ?_⟩
  rw [dedupKeep1, dedupGo_filter]
  rw [if_neg (List.not_mem_nil _), hr0]
  rfl

/-! ## Price-filter invariant -/

/-- Rows surviving the coercion steps carry a strictly positive sale price. -/
theorem toMid_pos {r : RawRow} {m : MidRow} (h : toMid r = some m) : 0 < m.salePrice := by
  unfold toMid at h
  split at h
  next => simp at h
  next p hp =>
    split at h
    next h0 =>
      split at h
      next => simp at h
      next dt hd =>
        injection h with h
        subst h
        exact h0
    next h0 => simp at h

/-- C5: every row of the table returned by DataCleaner.clean has a numeric
sale price strictly greater than zero; the steps after the price filter
drop or decorate rows but never reintroduce a non-positive price. -/
theorem c5_sale_price_positive
    (files : List (List RawRow)) (out : List CRow) (r : CRow)
    (hclean : clean files = Except.ok out) (hr : r ∈ out) : 0 < r.salePrice := by
  unfold clean at hclean
  cases hdl : deLoad files with
  | none => rw [hdl] at hclean; exact absurd hclean (by simp)
  | some rows =>
      rw [hdl] at hclean
      have hout : cleanRows rows = out := by
        injection hclean
      subst hout
      unfold cleanRows at hr
      obtain ⟨m, hm, rfl⟩ := List.mem_map.mp hr
      obtain ⟨r', _, hm'⟩ := List.mem_filterMap.mp hm
      exact toMid_pos hm'

/-- Example raw rows used to instantiate the universally quantified theorems. -/
def exRawRow : RawRow :=
  { borough := ("1").toList, neighborhood := (" harlem  east").toList,
    buildingClass := ("01 ONE FAMILY").toList, block := ("12").toList,
    lot := ("3").toList, address := ("1 MAIN ST").toList, apartment := ("").toList,
    zip := ("10001").toList, saleDate := ("2021-01-03").toList,
    salePrice := ("100").toList, rest := ("x").toList }

/-- Second copy of the example row agreeing on the composite key. -/
def exRawRowDup : RawRow := { exRawRow with rest := ("y").toList }

/-- Witness for C8 at a concrete two-row input whose rows share the key. -/
theorem c8_dedup_first_survives_witness :
    ∃ r0, ([exRawRow, exRawRowDup].find? (fun r => rawKey r == rawKey exRawRow)) = some r0 ∧
      (dedupKeep1 rawKey [exRawRow, exRawRowDup]).filter
        (fun r => rawKey r == rawKey exRawRow) = [r0] :=
  c8_dedup_first_survives [exRawRow, exRawRowDup] 0 1 (by decide) (by decide)
    (by decide) (by decide)

/-- Fallback row for headD in witnesses. -/
def dummyCRow : CRow :=
  { borough := none, neighborhood := [], buildingClass := [], block := [], lot := [],
    address := [], apartment := [], zip := [], rest := [], saleDate := (0, 1, 1),
    year := 0, salePrice := 1, boroughName := [], minSalePrice := none,
    avgSalePrice := none, medianSalePrice := none, maxSalePrice := none,
    numSales := none, medianPriceYoyPct := none }

attribute [local semireducible] Rat.add Rat.mul Rat.inv Rat.sub

/-- Witness for C5 at a concrete one-row input. -/
theorem c5_sale_price_positive_witness :
    0 < ((cleanRows [exRawRow]).headD dummyCRow).salePrice :=
  c5_sale_price_positive [[exRawRow]] (cleanRows [exRawRow]) _ rfl (by decide)

/-! ## Empty-input behaviour -/

/-- C6 counterexample: DataCleaner.clean applied to a source directory with
no CSV files does not return an empty table; drop_duplicates raises a
KeyError because the key columns are absent from the column-less empty frame. -/
theorem c6_cex_clean_raises_on_empty :
    clean [] =
      Except.error (("KeyError: drop_duplicates subset columns absent from the empty frame").toList) :=
  rfl

/-- C6 amended: DataExtractor.load, DataIngester.ingest and
MetricsCalculator.compute return an empty result on a missing or empty
source directory, while DataCleaner.clean raises on it. -/
theorem c6_empty_inputs :
    deLoad ([] : List (List RawRow)) = none ∧
    ingest [] = none ∧
    (∀ dataP, compute [] dataP = none) ∧
    (∃ e, clean [] = Except.error e) :=
  ⟨rfl, rfl, fun _ => rfl, ⟨_, rfl⟩⟩

/-! ## Borough-name mapping -/

/-- Raw row whose borough code lies outside 1-5. -/
def exRawRow6 : RawRow := { exRawRow with borough := ("6").toList }

/-- C4: on a row with borough code 6 (outside the fixed map) the cleaned
table carries the literal string 'nan' as BOROUGH NAME — the final
astype(str).str.strip() pass of step 11 stringifies the missing marker —
although the fixed mapping itself sends the code to missing. -/
theorem c4_borough_name_nan_on_code_6 :
    (cleanRows [exRawRow6]).map (fun r => r.borough) = [some 6] ∧
    (cleanRows [exRawRow6]).map (fun r => r.boroughName) = [("nan").toList] ∧
    boroughNameOf (some 6) = none := by
  decide

/-! ## Extract error aggregation -/

/-- The extraction loop writes exactly the good files' CSVs and records
exactly the bad files' errors, both in file order. -/
theorem extractGo_eq (fs : List XFile) :
    extractGo fs = (fs.filterMap outOf, fs.filterMap errOf) := by
  induction fs with
  | nil => rfl
  | cons f fs ih =>
      simp only [extractGo, ih, List.filterMap_cons]
      cases hp : processFile f with
      | ok o => simp [outOf, errOf, hp]
      | error e => simp [outOf, errOf, hp]

/-- A found header index is in range, so the re-read frame is nonempty. -/
theorem headerIdx_lt_length {f : XFile} {i : Nat} (h : headerIdxOf f = some i) :
    i < f.length := by
  rw [headerIdxOf, List.findIdx?_eq_some_iff_findIdx_eq] at h
  exact h.1

/-- C7: DataExtractor.extract records one error per bad spreadsheet — header
sentinel never found, or normalized columns differing from the required
21-column schema — skipping it and continuing with the remaining files, and
after all files are processed it fails with the aggregated list of every
recorded error if and only if at least one error was recorded (otherwise it
succeeds with exactly the good files' outputs). -/
theorem c7_extract_error_aggregation (files : List XFile) :
    (∀ es, extract files = Except.error es ↔ (es = files.filterMap errOf ∧ es ≠ [])) ∧
    (extract files = Except.ok (files.filterMap outOf) ↔ files.filterMap errOf = []) ∧
    (∀ f ∈ files, (errOf f).isSome ↔
      ((∀ row ∈ f, isHeaderTriple row = false) ∨
       ∃ i hdr rest, headerIdxOf f = some i ∧ f.drop i = hdr :: rest ∧
         hdr.map (fun x => normalizeColumn (cellStr x)) ≠ REQUIRED_COLUMNS)) := by
  refine ⟨?_, ?_, ?_⟩
  · intro es
    unfold extract
    rw [extractGo_eq]
    by_cases he : files.filterMap errOf = []
    · rw [he]
      simp
    · simp only [he, if_neg he]
      constructor
      · intro h
        injection h with h
        exact ⟨h.symm ▸ rfl, h ▸ he⟩
      · rintro ⟨rfl, _⟩
        rfl
  · unfold extract
    rw [extractGo_eq]
    by_cases he : files.filterMap errOf = []
    · simp [he]
    · simp only [if_neg he]
      constructor
      · intro h
        exact absurd h (by simp)
      · intro h
        exact absurd h he
  · intro f _
    cases hh : headerIdxOf f with
    | none =>
        have hpf : errOf f = some (ExtractErr.headerNotFound f) := by
          unfold errOf processFile
          simp only [hh]
        rw [hpf]
        simp only [Option.isSome_some, true_iff]
        left
        exact fun row hrow => List.findIdx?_eq_none_iff.mp hh row hrow
    | some i =>
        have hlt : i < f.length := headerIdx_lt_length hh
        have hdrop : f.drop i ≠ [] := by
          intro hc
          have := List.drop_eq_nil_iff.mp hc
          omega
        cases hd : f.drop i with
        | nil => exact absurd hd hdrop
        | cons hdr rest =>
            by_cases hcols : hdr.map (fun x => normalizeColumn (cellStr x)) = REQUIRED_COLUMNS
            · have hpf : errOf f = none := by
                unfold errOf processFile
                simp only [hh, hd]
                rw [if_pos hcols]
              rw [hpf]
              simp only [Option.isSome_none, Bool.false_eq_true, false_iff]
              push_neg
              constructor
              · refine ⟨f.get ⟨i, hlt⟩, List.get_mem f i hlt, ?_⟩
                obtain ⟨h1, h2, _⟩ := List.findIdx?_eq_some_iff_getElem.mp hh
                simpa using h2
              · intro i2 hdr2 rest2 hi2 hdrop2
                injection hi2 with hi2
                subst hi2
                rw [hd] at hdrop2
                injection hdrop2 with h1 h2
                subst h1
                simpa using hcols
            · have hpf : errOf f =
                  some (ExtractErr.columnMismatch f
                    (hdr.map (fun x => normalizeColumn (cellStr x)))) := by
                unfold errOf processFile
                simp only [hh, hd]
                rw [if_neg hcols]
              rw [hpf]
              simp only [Option.isSome_some, true_iff]
              right
              exact ⟨i, hdr, rest, rfl, hd, hcols⟩

/-- Well-formed spreadsheet: a junk first row, the exact required header,
one data row. -/
def c7goodFile : XFile :=
  [[some (("junk").toList)],
   REQUIRED_COLUMNS.map (fun c => some c),
   List.replicate 21 (some (("1").toList))]

/-- Spreadsheet with no header sentinel row. -/
def c7badFile : XFile := [[some (("nothing").toList)]]

/-- Witness for C7 at a concrete pair of files: the good file is written,
the bad file's error is recorded, and the aggregate failure lists it. -/
theorem c7_extract_error_aggregation_witness :
    extract [c7goodFile, c7badFile] =
      Except.error [ExtractErr.headerNotFound c7badFile] :=
  ((c7_extract_error_aggregation [c7goodFile, c7badFile]).1
    [ExtractErr.headerNotFound c7badFile]).mpr ⟨by decide, by decide⟩

/-! ## Metrics lemmas -/

/-- MARKET BREADTH value the left merge on YEAR attaches for a given year. -/
def breadthLookupMB (dataP : List (List IRow)) (y : Int) : Option ℚ :=
  match (breadthTable dataP).find? (fun b => b.year == y) with
  | some b => b.marketBreadth
  | none => none

/-- NUM NEIGHBORHOODS value the left merge on YEAR attaches for a given year. -/
def breadthLookupNN (dataP : List (List IRow)) (y : Int) : Option Int :=
  ((breadthTable dataP).find? (fun b => b.year == y)).map (fun b => b.numNeighborhoods)

/-- Every row of the summary matrix carries the breadth columns obtained by
looking its year up in the breadth frame, and the affordability quantile of
its own (borough name, year) group. -/
theorem compute_row_fields {src dataP : List (List IRow)} {out : List MRow} {r : MRow}
    (hc : compute src dataP = some out) (hr : r ∈ out) :
    r.marketBreadth = breadthLookupMB dataP r.year ∧
    r.numNeighborhoods = breadthLookupNN dataP r.year ∧
    r.affordabilityIndex =
      quantileLinear (1 / 4)
        ((src.flatten.filter
          (fun t => t.boroughName == r.boroughName && t.year == r.year)).filterMap
          (fun t => t.medianSalePrice)) := by
  unfold compute at hc
  by_cases hs : src.isEmpty
  · rw [if_pos hs] at hc; exact absurd hc (by simp)
  · rw [if_neg hs] at hc
    injection hc with hc
    subst hc
    obtain ⟨p, hp, rfl⟩ := List.mem_map.mp hr
    unfold affordability at hp
    obtain ⟨k, _, rfl⟩ := List.mem_map.mp hp
    cases hf : (computeMarketBreadth src.flatten dataP).find? (fun b => b.year == k.year) with
    | none =>
        refine ⟨?_, ?_, ?_⟩
        · simp only [hf]
          unfold breadthLookupMB
          rw [show breadthTable dataP = computeMarketBreadth src.flatten dataP from rfl, hf]
        · simp only [hf]
          unfold breadthLookupNN
          rw [show breadthTable dataP = computeMarketBreadth src.flatten dataP from rfl, hf]
          rfl
        · simp only [hf]
    | some b =>
        refine ⟨?_, ?_, ?_⟩
        · simp only [hf]
          unfold breadthLookupMB
          rw [show breadthTable dataP = computeMarketBreadth src.flatten dataP from rfl, hf]
        · simp only [hf]
          unfold breadthLookupNN
          rw [show breadthTable dataP = computeMarketBreadth src.flatten dataP from rfl, hf]
          rfl
        · simp only [hf]

/-- C10: the MARKET BREADTH and NUM NEIGHBORHOODS columns depend only on the
contents of the hardcoded data/p directory, not on the dataframe argument of
_compute_market_breadth nor on src_dir: the breadth computation ignores its
argument, and two runs over different source directories but the same data/p
contents agree on the breadth columns at every common year. -/
theorem c10_breadth_ignores_src
    : (∀ (df₁ df₂ : List IRow) (dataP : List (List IRow)),
        computeMarketBreadth df₁ dataP = computeMarketBreadth df₂ dataP) ∧
      (∀ (src₁ src₂ dataP : List (List IRow)) (out₁ out₂ : List MRow) (r₁ r₂ : MRow),
        compute src₁ dataP = some out₁ → compute src₂ dataP = some out₂ →
        r₁ ∈ out₁ → r₂ ∈ out₂ → r₁.year = r₂.year →
        r₁.marketBreadth = r₂.marketBreadth ∧
          r₁.numNeighborhoods = r₂.numNeighborhoods) := by
  refine ⟨fun _ _ _ => rfl, ?_⟩
  intro src₁ src₂ dataP out₁ out₂ r₁ r₂ hc₁ hc₂ hr₁ hr₂ hy
  obtain ⟨hmb₁, hnn₁, _⟩ := compute_row_fields hc₁ hr₁
  obtain ⟨hmb₂, hnn₂, _⟩ := compute_row_fields hc₂ hr₂
  rw [hmb₁, hmb₂, hnn₁, hnn₂, hy]
  exact ⟨rfl, rfl⟩

/-- C1: the affordability index of each (borough name, year) row of the
summary matrix is the 25th linear-interpolation percentile of the MEDIAN
SALE PRICE values of that group, every group present in the source receives
a row, and on the fixture values [100, 200, 300, 400] the percentile is 175. -/
theorem c1_affordability_quantile
    (src dataP : List (List IRow)) (out : List MRow)
    (hc : compute src dataP = some out) :
    (∀ r ∈ out, r.affordabilityIndex =
      quantileLinear (1 / 4)
        ((src.flatten.filter
          (fun t => t.boroughName == r.boroughName && t.year == r.year)).filterMap
          (fun t => t.medianSalePrice))) ∧
    (∀ b y, (∃ t ∈ src.flatten, t.boroughName = b ∧ t.year = y) →
      ∃ r ∈ out, r.boroughName = b ∧ r.year = y) ∧
    quantileLinear (1 / 4) [100, 200, 300, 400] = some 175 := by
  refine ⟨fun r hr => (compute_row_fields hc hr).2.2, ?_, by decide⟩
  intro b y ⟨t, ht, hb, hy⟩
  unfold compute at hc
  by_cases hs : src.isEmpty
  · rw [if_pos hs] at hc; exact absurd hc (by simp)
  · rw [if_neg hs] at hc
    injection hc with hc
    subst hc
    have hkmem : K2.mk b y ∈
        (dedupKeep1 id (src.flatten.map (fun r => K2.mk r.boroughName r.year))).insertionSort
          (fun a b => k2LeB a b = true) := by
      rw [List.mem_insertionSort, mem_dedupKeep1_id]
      exact List.mem_map.mpr ⟨t, ht, by rw [hb, hy]⟩
    refine ⟨_, List.mem_map.mpr ⟨_, List.mem_map.mpr ⟨K2.mk b y, hkmem, rfl⟩, rfl⟩, ?_⟩
    cases hf : (computeMarketBreadth src.flatten dataP).find?
        (fun br => br.year == (K2.mk b y).year) with
    | none => simp [hf]
    | some br => simp [hf]

/-- Ingested-row fixture builder. -/
def mkIR (b n : String) (y : Int) (m : ℚ) : IRow :=
  { boroughName := b.toList, neighborhood := n.toList, buildingClass := ("A").toList,
    year := y, numSales := 1, avgSalePrice := some m, medianSalePrice := some m }

/-- Fixture source directory: one borough-year group with medians 100..400. -/
def c1src : List (List IRow) :=
  [[mkIR ("MANHATTAN") ("N1") 2020 100, mkIR ("MANHATTAN") ("N2") 2020 200,
    mkIR ("MANHATTAN") ("N3") 2020 300, mkIR ("MANHATTAN") ("N4") 2020 400]]

/-- Fallback row for headD in witnesses. -/
def dummyMRow : MRow := ⟨[], 0, none, none, none⟩

/-- Witness for C1 at the fixture: the group's index is its 25th percentile,
and the fixture percentile is exactly 175. -/
theorem c1_affordability_quantile_witness :
    (((compute c1src [[]]).getD []).headD dummyMRow).affordabilityIndex =
      quantileLinear (1 / 4)
        ((c1src.flatten.filter
          (fun t => t.boroughName == (((compute c1src [[]]).getD []).headD dummyMRow).boroughName &&
            t.year == (((compute c1src [[]]).getD []).headD dummyMRow).year)).filterMap
          (fun t => t.medianSalePrice)) ∧
    quantileLinear (1 / 4) [100, 200, 300, 400] = some 175 :=
  ⟨(c1_affordability_quantile c1src [[]] _ rfl).1 _ (by decide),
   (c1_affordability_quantile c1src [[]] _ rfl).2.2⟩

/-- Fixture source directories differing in contents, with a shared data/p. -/
def c10src1 : List (List IRow) := [[mkIR ("MANHATTAN") ("X") 2020 100]]

/-- Second fixture source directory with different contents. -/
def c10src2 : List (List IRow) := [[mkIR ("BRONX") ("Y") 2020 500]]

/-- Shared data/p fixture with one neighborhood rising from 2019 to 2020. -/
def c10dataP : List (List IRow) :=
  [[mkIR ("QUEENS") ("N1") 2019 50, mkIR ("QUEENS") ("N1") 2020 60]]

/-- Witness for C10 at the fixtures: breadth ignores its argument, and the
two runs agree on the breadth columns at the common year. -/
theorem c10_breadth_ignores_src_witness :
    (computeMarketBreadth c10src1.flatten c10dataP =
      computeMarketBreadth c10src2.flatten c10dataP) ∧
    ((((compute c10src1 c10dataP).getD []).headD dummyMRow).marketBreadth =
      (((compute c10src2 c10dataP).getD []).headD dummyMRow).marketBreadth ∧
     (((compute c10src1 c10dataP).getD []).headD dummyMRow).numNeighborhoods =
      (((compute c10src2 c10dataP).getD []).headD dummyMRow).numNeighborhoods) :=
  ⟨(c10_breadth_ignores_src).1 _ _ _,
   (c10_breadth_ignores_src).2 c10src1 c10src2 c10dataP _ _ _ _ rfl rfl
     (by decide) (by decide) (by decide)⟩

/-! ## Market breadth: claim-side reading and row-wise characterization -/

/-- Distinct neighborhoods of an ingested table, in order of appearance. -/
def neighborhoodsOf (rows : List IRow) : List Str :=
  dedupKeep1 id (rows.map (fun r => r.neighborhood))

/-- Observed years of one neighborhood. -/
def nbhdYears (rows : List IRow) (n : Str) : List Int :=
  (rows.filter (fun r => r.neighborhood == n)).map (fun r => r.year)

/-- Claim-side median sale price of a neighborhood at a year.  The claim
speaks of "the median sale price of the neighborhood for that year"; when a
table carries several rows for one (neighborhood, year) pair the claim leaves
the choice unspecified, and the first row in table order is taken here (the
counterexample below does not depend on this choice). -/
def specMedAt (rows : List IRow) (n : Str) (y : Int) : Option ℚ :=
  match rows.find? (fun r => r.neighborhood == n && r.year == y) with
  | some r => r.medianSalePrice
  | none => none

/-- Claim-side prior observed year of a neighborhood before year y. -/
def specPrevYear (rows : List IRow) (n : Str) (y : Int) : Option Int :=
  (((nbhdYears rows n).filter (fun u => decide (u < y))).insertionSort
    (fun a b => a ≤ b)).getLast?

/-- Claim-side year-over-year difference of a neighborhood at a year:
defined only when the year is a non-first observed year of the neighborhood. -/
def specDiff (rows : List IRow) (n : Str) (y : Int) : Option ℚ :=
  match specPrevYear rows n y with
  | some p =>
      match specMedAt rows n y, specMedAt rows n p with
      | some a, some b => some (a - b)
      | _, _ => none
  | none => none

/-- Neighborhoods having a valid (non-first-year) difference at a year. -/
def specValidNbhds (rows : List IRow) (y : Int) : List Str :=
  (neighborhoodsOf rows).filter (fun n => (specDiff rows n y).isSome)

/-- Neighborhoods whose difference at a year is positive. -/
def specPosNbhds (rows : List IRow) (y : Int) : List Str :=
  (neighborhoodsOf rows).filter (fun n => decide (0 < (specDiff rows n y).getD 0))

/-- C2 as the claim words it: breadth = positive neighborhoods over
neighborhoods with a valid difference (NaN when none), and NUM NEIGHBORHOODS
counts neighborhoods with a valid difference. -/
def claimC2Holds (dataP : List (List IRow)) : Prop :=
  ∀ r ∈ breadthTable dataP,
    (r.marketBreadth =
      (if (specValidNbhds dataP.flatten r.year).length = 0 then none
       else some
         (((specPosNbhds dataP.flatten r.year).length : ℚ) /
          ((specValidNbhds dataP.flatten r.year).length : ℚ)))) ∧
    r.numNeighborhoods = ((specValidNbhds dataP.flatten r.year).length : Int)

/-- A data/p table carrying two rows of the same neighborhood and year
(two building classes of neighborhood A, both in 2020). -/
def c2cexData : List (List IRow) :=
  [[mkIR ("M") ("A") 2020 100,
    { mkIR ("M") ("A") 2020 200 with buildingClass := ("B").toList }]]

/-- C2 counterexample: on a table with two same-year rows of one
neighborhood, the code's row-wise diff marks 2020 as having one valid
positive difference (breadth 1, count 1), while under the claim's reading
2020 is the neighborhood's first observed year, so no neighborhood has a
valid difference (breadth NaN, count 0). -/
theorem c2_cex_rowwise_not_neighborhoodwise : ¬ claimC2Holds c2cexData := by
  unfold claimC2Holds
  decide

/-- The valid (non-missing) row-wise differences of the breadth computation. -/
def validDiffs (dataP : List (List IRow)) : List (IRow × Option ℚ) :=
  (diffWalk none (sortNY dataP.flatten)).filter (fun p => p.2.isSome)

/-- Unfolding of the breadth frame into its year list and row builder. -/
theorem breadthTable_eq (dataP : List (List IRow)) :
    breadthTable dataP =
      ((dedupKeep1 id ((sortNY dataP.flatten).map (fun r => r.year))).insertionSort
        (fun a b => a ≤ b)).map (breadthRowOf (validDiffs dataP)) := rfl

/-- Year field of a breadth row. -/
theorem breadthRowOf_year (v : List (IRow × Option ℚ)) (y : Int) :
    (breadthRowOf v y).year = y := rfl

/-- Breadth field of a breadth row. -/
theorem breadthRowOf_marketBreadth (v : List (IRow × Option ℚ)) (y : Int) :
    (breadthRowOf v y).marketBreadth =
      (if (v.filter (fun p => p.1.year == y)).isEmpty then none
       else some
         (((v.filter (fun p => p.1.year == y)).countP
            (fun p => decide (0 < p.2.getD 0)) : ℚ) /
          ((v.filter (fun p => p.1.year == y)).length : ℚ))) := rfl

/-- Count field of a breadth row. -/
theorem breadthRowOf_numNeighborhoods (v : List (IRow × Option ℚ)) (y : Int) :
    (breadthRowOf v y).numNeighborhoods =
      ((v.filter (fun p => p.1.year == y)).length : Int) := rfl

/-- C2 amended: the breadth frame has exactly one row per year occurring in
the data/p table; MARKET BREADTH for a year is the fraction of valid
row-wise differences of that year that are positive — each row's difference
taken against the immediately preceding row of the same neighborhood in the
stable (neighborhood, year) sort — missing for a year with no valid
difference; NUM NEIGHBORHOODS counts that year's valid row differences. -/
theorem c2_breadth_rowwise (dataP : List (List IRow)) :
    (∀ r ∈ breadthTable dataP,
      (r.marketBreadth =
        (if (validDiffs dataP).countP (fun p => p.1.year == r.year) = 0 then none
         else some
           (((validDiffs dataP).countP
              (fun p => p.1.year == r.year && decide (0 < p.2.getD 0)) : ℚ) /
            ((validDiffs dataP).countP (fun p => p.1.year == r.year) : ℚ)))) ∧
      r.numNeighborhoods =
        ((validDiffs dataP).countP (fun p => p.1.year == r.year) : Int)) ∧
    ((breadthTable dataP).map (fun r => r.year)).Nodup ∧
    (∀ y, y ∈ (breadthTable dataP).map (fun r => r.year) ↔
      ∃ t ∈ dataP.flatten, t.year = y) := by
  have hyears : (breadthTable dataP).map (fun r => r.year) =
      (dedupKeep1 id ((sortNY dataP.flatten).map (fun r => r.year))).insertionSort
        (fun a b => a ≤ b) := by
    rw [breadthTable_eq, List.map_map]
    rw [show ((fun r => BRow.year r) ∘ breadthRowOf (validDiffs dataP)) = id from
      funext fun y => rfl]
    exact List.map_id _
  refine ⟨?_, ?_, ?_⟩
  · intro r hr
    rw [breadthTable_eq] at hr
    obtain ⟨y, _, rfl⟩ := List.mem_map.mp hr
    rw [breadthRowOf_year, breadthRowOf_marketBreadth, breadthRowOf_numNeighborhoods]
    simp only [List.countP_eq_length_filter, List.isEmpty_iff_length_eq_zero,
      List.filter_filter]
    have hcomm : (validDiffs dataP).filter
          (fun p => decide (0 < p.2.getD 0) && p.1.year == y) =
        (validDiffs dataP).filter
          (fun p => p.1.year == y && decide (0 < p.2.getD 0)) :=
      List.filter_congr (fun x _ => by rw [Bool.and_comm])
    rw [hcomm]
    exact ⟨rfl, trivial⟩
  · rw [hyears]
    exact ((List.perm_insertionSort _ _).nodup_iff).mpr (nodup_dedupKeep1_id _)
  · intro y
    rw [hyears, List.mem_insertionSort, mem_dedupKeep1_id]
    constructor
    · intro h
      obtain ⟨t, ht, hy⟩ := List.mem_map.mp h
      exact ⟨t, (List.mem_insertionSort _).mp ht, hy⟩
    · rintro ⟨t, ht, hy⟩
      exact List.mem_map.mpr ⟨t, (List.mem_insertionSort _).mpr ht, hy⟩

/-- Fallback breadth row for headD in witnesses. -/
def dummyBRow : BRow := ⟨0, none, 0⟩

/-- Witness for the amended C2 at a concrete table. -/
theorem c2_breadth_rowwise_witness :
    ((breadthTable c2cexData).headD dummyBRow).numNeighborhoods =
      ((validDiffs c2cexData).countP
        (fun p => p.1.year == ((breadthTable c2cexData).headD dummyBRow).year) : Int) :=
  ((c2_breadth_rowwise c2cexData).1 _ (by decide)).2

/-! ## Neighborhood normalization: character lemmas -/

/-- Code point of the upper-cased character. -/
theorem upChar_toNat (c : Char) :
    (upChar c).toNat =
      if 97 ≤ c.toNat ∧ c.toNat ≤ 122 then c.toNat - 32 else c.toNat := by
  unfold upChar
  split
  next h => rfl
  next h => rfl

/-- Characters outside the lowercase range are fixed by upper-casing. -/
theorem upChar_eq_self_of_not {c : Char} (h : ¬(97 ≤ c.toNat ∧ c.toNat ≤ 122)) :
    upChar c = c := dif_neg h

/-- Upper-casing is idempotent. -/
theorem upChar_idem (c : Char) : upChar (upChar c) = upChar c := by
  by_cases h : 97 ≤ c.toNat ∧ c.toNat ≤ 122
  · have ht : (upChar c).toNat = c.toNat - 32 := by rw [upChar_toNat, if_pos h]
    exact upChar_eq_self_of_not (by rw [ht]; omega)
  · have h0 : upChar c = c := upChar_eq_self_of_not h
    rw [h0]
    exact h0

/-- One character of the upper-case-then-underscore-replace pass. -/
def npChar (c : Char) : Char := undToSp (upChar c)

/-- The upper/underscore pass as a single map. -/
theorem map_npChar (v : Str) : (v.map upChar).map undToSp = v.map npChar := by
  rw [List.map_map]
  rfl

/-- The upper/underscore character pass is idempotent. -/
theorem npChar_idem (c : Char) : npChar (npChar c) = npChar c := by
  by_cases hu : upChar c = '_'
  · have h1 : npChar c = ' ' := by simp [npChar, undToSp, hu]
    rw [h1]
    decide
  · have h1 : npChar c = upChar c := by simp [npChar, undToSp, hu]
    rw [h1, npChar, upChar_idem]
    exact h1

/-- The space is fixed by the upper/underscore pass. -/
theorem npChar_space : npChar ' ' = ' ' := by decide

/-! ## Neighborhood normalization: splitter lemmas -/

/-- Splitting walks through a whitespace-free word by accumulating it. -/
theorem splitWsGo_word (w : Str) (hw : ∀ c ∈ w, isWs c = false) :
    ∀ (l : Str) (acc : Str), splitWsGo acc (w ++ l) = splitWsGo (w.reverse ++ acc) l := by
  induction w with
  | nil => intro l acc; simp [splitWsGo]
  | cons c w ih =>
      intro l acc
      have hc : isWs c = false := hw c (List.mem_cons_self _ _)
      show splitWsGo acc (c :: (w ++ l)) = _
      rw [splitWsGo, hc]
      show splitWsGo (c :: acc) (w ++ l) = _
      rw [ih (fun x hx => hw x (List.mem_cons_of_mem _ hx)) l (c :: acc)]
      rw [List.reverse_cons, List.append_assoc]
      rfl

/-- The splitter never returns an empty list when the accumulator is nonempty. -/
theorem splitWsGo_ne_nil : ∀ (l : Str) (acc : Str), acc ≠ [] → splitWsGo acc l ≠ [] := by
  intro l
  induction l with
  | nil =>
      intro acc hacc
      simp [splitWsGo, hacc]
  | cons c cs ih =>
      intro acc hacc
      rw [splitWsGo]
      by_cases hc : isWs c
      · rw [if_pos hc, if_neg hacc]
        exact List.cons_ne_nil _ _
      · rw [if_neg hc]
        exact ih _ (List.cons_ne_nil _ _)

/-- Every word produced by the splitter is nonempty and whitespace-free. -/
theorem splitWsGo_words :
    ∀ (l : Str) (acc : Str), (∀ c ∈ acc, isWs c = false) →
      ∀ w ∈ splitWsGo acc l, w ≠ [] ∧ ∀ c ∈ w, isWs c = false := by
  intro l
  induction l with
  | nil =>
      intro acc hacc w hw
      rw [splitWsGo] at hw
      by_cases ha : acc = []
      · rw [if_pos ha] at hw
        simp at hw
      · rw [if_neg ha] at hw
        rcases List.mem_singleton.mp hw with rfl
        refine ⟨by simpa using ha, fun c hc => hacc c (List.mem_reverse.mp hc)⟩
  | cons c cs ih =>
      intro acc hacc w hw
      rw [splitWsGo] at hw
      by_cases hc : isWs c
      · rw [if_pos hc] at hw
        by_cases ha : acc = []
        · rw [if_pos ha] at hw
          exact ih [] (by simp) w hw
        · rw [if_neg ha] at hw
          rcases List.mem_cons.mp hw with rfl | hw
          · refine ⟨by simpa using ha, fun x hx => hacc x (List.mem_reverse.mp hx)⟩
          · exact ih [] (by simp) w hw
      · rw [if_neg hc] at hw
        refine ih (c :: acc) ?_ w hw
        intro x hx
        rcases List.mem_cons.mp hx with rfl | hx
        · simpa using hc
        · exact hacc x hx

/-- Leading whitespace is ignored by the splitter. -/
theorem splitWsGo_dropWhile : ∀ (l : Str), splitWsGo [] (l.dropWhile isWs) = splitWsGo [] l := by
  intro l
  induction l with
  | nil => rfl
  | cons c cs ih =>
      by_cases hc : isWs c
      · rw [List.dropWhile_cons_of_pos hc, ih]
        show _ = splitWsGo [] (c :: cs)
        rw [splitWsGo, if_pos hc, if_pos rfl]
      · rw [List.dropWhile_cons_of_neg hc]

/-- An all-whitespace input only flushes the accumulator. -/
theorem splitWsGo_all_ws :
    ∀ (z : Str), (∀ c ∈ z, isWs c = true) →
      ∀ (acc : Str), splitWsGo acc z = if acc = [] then [] else [acc.reverse] := by
  intro z
  induction z with
  | nil => intro _ acc; rfl
  | cons c z ih =>
      intro hz acc
      rw [splitWsGo, if_pos (hz c (List.mem_cons_self _ _))]
      by_cases ha : acc = []
      · rw [if_pos ha, ih (fun x hx => hz x (List.mem_cons_of_mem _ hx)) [], if_pos rfl,
          if_pos ha]
      · rw [if_neg ha, ih (fun x hx => hz x (List.mem_cons_of_mem _ hx)) [], if_pos rfl,
          if_neg ha]

/-- Trailing all-whitespace input does not change the split. -/
theorem splitWsGo_append_ws (z : Str) (hz : ∀ c ∈ z, isWs c = true) :
    ∀ (y : Str) (acc : Str), splitWsGo acc (y ++ z) = splitWsGo acc y := by
  intro y
  induction y with
  | nil =>
      intro acc
      rw [List.nil_append, splitWsGo_all_ws z hz acc]
      rfl
  | cons a y ih =>
      intro acc
      show splitWsGo acc (a :: (y ++ z)) = splitWsGo acc (a :: y)
      rw [splitWsGo, splitWsGo]
      by_cases ha : isWs a
      · rw [if_pos ha, if_pos ha]
        by_cases hacc : acc = []
        · rw [if_pos hacc, if_pos hacc, ih]
        · rw [if_neg hacc, if_neg hacc, ih]
      · rw [if_neg ha, if_neg ha, ih]

/-- Members of the stripped string are members of the string. -/
theorem mem_pyStrip {x : Str} {c : Char} (h : c ∈ pyStrip x) : c ∈ x := by
  unfold pyStrip lstrip rstrip at h
  have h1 := (List.dropWhile_sublist isWs).mem h
  have h2 := List.mem_reverse.mp h1
  have h3 := (List.dropWhile_sublist isWs).mem h2
  exact List.mem_reverse.mp h3

/-- Stripping does not change the split. -/
theorem splitWs_pyStrip (l : Str) : splitWs (pyStrip l) = splitWs l := by
  unfold splitWs pyStrip lstrip rstrip
  rw [splitWsGo_dropWhile]
  have hdecomp : l = (l.reverse.dropWhile isWs).reverse ++ (l.reverse.takeWhile isWs).reverse := by
    have := List.takeWhile_append_dropWhile isWs l.reverse
    calc l = l.reverse.reverse := (List.reverse_reverse l).symm
    _ = (l.reverse.takeWhile isWs ++ l.reverse.dropWhile isWs).reverse := by rw [this]
    _ = (l.reverse.dropWhile isWs).reverse ++ (l.reverse.takeWhile isWs).reverse := by
          rw [List.reverse_append]
  conv_rhs => rw [hdecomp]
  rw [splitWsGo_append_ws]
  intro c hc
  exact List.mem_takeWhile_imp (List.mem_reverse.mp hc)

/-- Splitting the space-joined list of nonempty whitespace-free words
recovers the words. -/
theorem splitWs_joinSp :
    ∀ (ts : List Str), (∀ w ∈ ts, w ≠ [] ∧ ∀ c ∈ w, isWs c = false) →
      splitWs (joinSp ts) = ts := by
  intro ts
  induction ts with
  | nil => intro _; rfl
  | cons t ts ih =>
      intro hts
      obtain ⟨htne, htws⟩ := hts t (List.mem_cons_self _ _)
      cases ts with
      | nil =>
          show splitWsGo [] (joinSp [t]) = [t]
          rw [show joinSp [t] = t from rfl, show t = t ++ [] from (List.append_nil t).symm,
            splitWsGo_word t htws [] []]
          rw [splitWsGo]
          rw [List.append_nil, if_neg (by simpa using htne), List.reverse_reverse]
          simp
      | cons t2 ts2 =>
          show splitWsGo [] (joinSp (t :: t2 :: ts2)) = t :: t2 :: ts2
          rw [show joinSp (t :: t2 :: ts2) = t ++ ' ' :: joinSp (t2 :: ts2) from rfl]
          rw [splitWsGo_word t htws _ []]
          rw [splitWsGo]
          rw [if_pos (show isWs ' ' = true by decide), List.append_nil,
            if_neg (by simpa using htne), List.reverse_reverse]
          exact congrArg (t :: ·) (ih (fun w hw => hts w (List.mem_cons_of_mem _ hw)))

/-- Characters of the joined words: a separator space or a word character. -/
theorem mem_joinSp :
    ∀ (ts : List Str) (c : Char), c ∈ joinSp ts → c = ' ' ∨ ∃ w ∈ ts, c ∈ w := by
  intro ts
  induction ts with
  | nil => intro c hc; simp [joinSp] at hc
  | cons t ts ih =>
      intro c hc
      cases ts with
      | nil => exact Or.inr ⟨t, List.mem_cons_self _ _, hc⟩
      | cons t2 ts2 =>
          rw [show joinSp (t :: t2 :: ts2) = t ++ ' ' :: joinSp (t2 :: ts2) from rfl] at hc
          rcases List.mem_append.mp hc with hc | hc
          · exact Or.inr ⟨t, List.mem_cons_self _ _, hc⟩
          · rcases List.mem_cons.mp hc with rfl | hc
            · exact Or.inl rfl
            · rcases ih c hc with h | ⟨w, hw, hcw⟩
              · exact Or.inl h
              · exact Or.inr ⟨w, List.mem_cons_of_mem _ hw, hcw⟩

/-- Characters of split words come from the input or the accumulator. -/
theorem mem_splitWsGo :
    ∀ (l : Str) (acc : Str) (w : Str) (c : Char),
      w ∈ splitWsGo acc l → c ∈ w → c ∈ l ∨ c ∈ acc := by
  intro l
  induction l with
  | nil =>
      intro acc w c hw hc
      rw [splitWsGo] at hw
      by_cases ha : acc = []
      · rw [if_pos ha] at hw; simp at hw
      · rw [if_neg ha] at hw
        rcases List.mem_singleton.mp hw with rfl
        exact Or.inr (List.mem_reverse.mp hc)
  | cons a cs ih =>
      intro acc w c hw hc
      rw [splitWsGo] at hw
      by_cases haws : isWs a
      · rw [if_pos haws] at hw
        by_cases ha : acc = []
        · rw [if_pos ha] at hw
          rcases ih [] w c hw hc with h | h
          · exact Or.inl (List.mem_cons_of_mem _ h)
          · simp at h
        · rw [if_neg ha] at hw
          rcases List.mem_cons.mp hw with rfl | hw
          · exact Or.inr (List.mem_reverse.mp hc)
          · rcases ih [] w c hw hc with h | h
            · exact Or.inl (List.mem_cons_of_mem _ h)
            · simp at h
      · rw [if_neg haws] at hw
        rcases ih (a :: acc) w c hw hc with h | h
        · exact Or.inl (List.mem_cons_of_mem _ h)
        · rcases List.mem_cons.mp h with rfl | h
          · exact Or.inl (List.mem_cons_self _ _)
          · exact Or.inr h

/-! ## Neighborhood normalization: run-collapsing lemmas -/

/-- After whitespace, collapsing continues past the rest of the run. -/
theorem collapseWsAfter_true (y : Str) :
    collapseWsAfter true y = collapseWsAfter false (y.dropWhile isWs) := by
  induction y with
  | nil => rfl
  | cons c cs ih =>
      by_cases hc : isWs c
      · rw [collapseWsAfter, if_pos hc, if_pos rfl, ih, List.dropWhile_cons_of_pos hc]
      · rw [collapseWsAfter, if_neg hc, List.dropWhile_cons_of_neg hc, collapseWsAfter,
          if_neg hc]

/-- Collapsing passes a whitespace-free word through unchanged. -/
theorem collapseWsAfter_word (w : Str) (hw : ∀ c ∈ w, isWs c = false) :
    ∀ (d : Str), collapseWsAfter false (w ++ d) = w ++ collapseWsAfter false d := by
  induction w with
  | nil => intro d; rfl
  | cons c w ih =>
      intro d
      have hc : isWs c = false := hw c (List.mem_cons_self _ _)
      show collapseWsAfter false (c :: (w ++ d)) = _
      rw [collapseWsAfter, hc]
      rw [ih (fun x hx => hw x (List.mem_cons_of_mem _ hx)) d]
      simp

/-- Heads of dropWhile fail the predicate. -/
theorem dropWhile_head_false {p : Char → Bool} :
    ∀ (l : Str) {e : Char} {tl : Str}, l.dropWhile p = e :: tl → p e = false := by
  intro l
  induction l with
  | nil => intro e tl h; simp at h
  | cons a cs ih =>
      intro e tl h
      by_cases ha : p a
      · rw [List.dropWhile_cons_of_pos ha] at h
        exact ih h
      · rw [List.dropWhile_cons_of_neg ha] at h
        injection h with h1 _
        subst h1
        simpa using ha

/-- A list whose head fails the predicate is fixed by dropWhile. -/
theorem dropWhile_eq_self_of_head {p : Char → Bool} :
    ∀ {l : Str}, (∀ c, l.head? = some c → p c = false) → l.dropWhile p = l := by
  intro l h
  cases l with
  | nil => rfl
  | cons a cs => exact List.dropWhile_cons_of_neg (by simpa using h a rfl)

/-- Last elements exist in the list. -/
theorem mem_of_getLast? {l : Str} {c : Char} (h : l.getLast? = some c) : c ∈ l := by
  cases l with
  | nil => simp at h
  | cons a cs =>
      rw [List.getLast?_eq_getLast _ (List.cons_ne_nil a cs)] at h
      injection h with h
      subst h
      exact List.getLast_mem _

/-- The stripped string has no leading whitespace. -/
theorem pyStrip_head {u : Str} {c : Char} (h : (pyStrip u).head? = some c) :
    isWs c = false := by
  unfold pyStrip lstrip at h
  cases hd : (rstrip u).dropWhile isWs with
  | nil => rw [hd] at h; simp at h
  | cons e tl =>
      rw [hd] at h
      injection h with h
      subst h
      exact dropWhile_head_false (rstrip u) hd

/-- The stripped string has no trailing whitespace. -/
theorem pyStrip_getLast {u : Str} {c : Char} (h : (pyStrip u).getLast? = some c) :
    isWs c = false := by
  unfold pyStrip lstrip at h
  have hsplit : rstrip u = (rstrip u).takeWhile isWs ++ (rstrip u).dropWhile isWs :=
    (List.takeWhile_append_dropWhile isWs (rstrip u)).symm
  have hne : (rstrip u).dropWhile isWs ≠ [] := by
    intro hc
    rw [hc] at h
    simp at h
  have hlast : ((rstrip u).dropWhile isWs).getLast? = (rstrip u).getLast? := by
    conv_rhs => rw [hsplit]
    rw [List.getLast?_append]
    cases hg : ((rstrip u).dropWhile isWs).getLast? with
    | none =>
        exact absurd (by simpa using hg) hne
    | some x => rfl
  rw [hlast] at h
  unfold rstrip at h
  rw [List.getLast?_reverse] at h
  cases hdw : (u.reverse.dropWhile isWs) with
  | nil => rw [hdw] at h; simp at h
  | cons e tl =>
      rw [hdw] at h
      injection h with h
      subst h
      exact dropWhile_head_false u.reverse hdw

/-- On a string with no leading and no trailing whitespace, joining the split
words equals collapsing the internal whitespace runs. -/
theorem joinSp_splitWs_eq_collapse :
    ∀ (n : Nat) (x : Str), x.length ≤ n →
      (∀ c, x.head? = some c → isWs c = false) →
      (∀ c, x.getLast? = some c → isWs c = false) →
      joinSp (splitWs x) = collapseWsAfter false x := by
  intro n
  induction n with
  | zero =>
      intro x hlen _ _
      have : x = [] := List.length_eq_zero.mp (Nat.le_zero.mp hlen)
      subst this
      rfl
  | succ n ih =>
      intro x hlen h1 h2
      cases hx : x with
      | nil => rfl
      | cons a cs =>
          subst hx
          have ha : isWs a = false := h1 a rfl
          have hw : ∀ c ∈ (a :: cs).takeWhile (fun c => !isWs c), isWs c = false := by
            intro c hc
            have := List.mem_takeWhile_imp hc
            simpa using this
          have hdecomp : a :: cs =
              (a :: cs).takeWhile (fun c => !isWs c) ++ (a :: cs).dropWhile (fun c => !isWs c) :=
            (List.takeWhile_append_dropWhile (fun c => !isWs c) (a :: cs)).symm
          have hwne : (a :: cs).takeWhile (fun c => !isWs c) ≠ [] := by
            rw [List.takeWhile_cons_of_pos (by simpa using ha)]
            exact List.cons_ne_nil _ _
          set w := (a :: cs).takeWhile (fun c => !isWs c) with hwdef
          set d := (a :: cs).dropWhile (fun c => !isWs c) with hddef
          have hsplit : splitWs (a :: cs) = splitWsGo w.reverse d := by
            unfold splitWs
            conv_lhs => rw [hdecomp]
            rw [splitWsGo_word w hw d [], List.append_nil]
          have hcollapse : collapseWsAfter false (a :: cs) = w ++ collapseWsAfter false d := by
            conv_lhs => rw [hdecomp]
            exact collapseWsAfter_word w hw d
          rw [hsplit, hcollapse]
          cases hd : d with
          | nil =>
              rw [splitWsGo]
              rw [if_neg (by simpa using hwne), List.reverse_reverse]
              show joinSp [w] = w ++ collapseWsAfter false []
              rw [show collapseWsAfter false [] = [] from rfl, List.append_nil]
              rfl
          | cons e d2 =>
              have he : isWs e = true := by
                have := dropWhile_head_false (a :: cs) hd
                simpa using this
              rw [splitWsGo, if_pos he, if_neg (by simpa using hwne), List.reverse_reverse]
              rw [show collapseWsAfter false (e :: d2) =
                  ' ' :: collapseWsAfter true d2 by rw [collapseWsAfter, if_pos he]; rfl]
              rw [collapseWsAfter_true, ← splitWsGo_dropWhile d2]
              set x2 := d2.dropWhile isWs with hx2def
              have hx2ne : x2 ≠ [] := by
                intro hc
                have hallws : ∀ c ∈ d2, isWs c = true := by
                  intro c hcm
                  exact List.dropWhile_eq_nil_iff.mp hc c hcm
                have hlastx : (a :: cs).getLast? = (e :: d2).getLast? := by
                  conv_lhs => rw [hdecomp, hd]
                  rw [List.getLast?_append]
                  cases hg : (e :: d2).getLast? with
                  | none => simp at hg
                  | some y => rfl
                cases hd2 : d2 with
                | nil =>
                    rw [hd2] at hlastx
                    have := h2 e (by rw [hlastx]; rfl)
                    rw [this] at he
                    exact Bool.false_ne_true he
                | cons f d3 =>
                    have hlast2 : (e :: d2).getLast? = d2.getLast? := by
                      rw [hd2]
                      exact List.getLast?_cons_cons
                    cases hg : d2.getLast? with
                    | none => rw [hd2] at hg; simp at hg
                    | some y =>
                        have hy : isWs y = false := by
                          apply h2
                          rw [hlastx, hlast2, hg]
                        have hym : y ∈ d2 := mem_of_getLast? hg
                        rw [hallws y hym] at hy
                        simp at hy
              have hx2head : ∀ c, x2.head? = some c → isWs c = false := by
                intro c hc
                cases hx2 : x2 with
                | nil => rw [hx2] at hc; simp at hc
                | cons g tl =>
                    rw [hx2] at hc
                    injection hc with hc
                    subst hc
                    exact dropWhile_head_false d2 hx2
              have hx2last : ∀ c, x2.getLast? = some c → isWs c = false := by
                intro c hc
                apply h2
                have hl1 : d2.getLast? = x2.getLast? := by
                  conv_lhs => rw [(List.takeWhile_append_dropWhile isWs d2).symm]
                  rw [List.getLast?_append, ← hx2def, hc]
                  rfl
                have hl2 : (a :: cs).getLast? = (e :: d2).getLast? := by
                  conv_lhs => rw [hdecomp, hd]
                  rw [List.getLast?_append]
                  cases hg : (e :: d2).getLast? with
                  | none => simp at hg
                  | some y => rfl
                have hl3 : (e :: d2).getLast? = d2.getLast? := by
                  cases hd2 : d2 with
                  | nil => rw [hd2] at hl1; simp [hc] at hl1
                  | cons f d3 => exact List.getLast?_cons_cons
                rw [hl2, hl3, hl1, hc]
              have hx2len : x2.length ≤ n := by
                have h1l : x2.length ≤ d2.length := (List.dropWhile_sublist isWs).length_le
                have h2l : (a :: cs).length = w.length + (e :: d2).length := by
                  conv_lhs => rw [hdecomp, hd]
                  exact List.length_append _ _
                have h3l : 1 ≤ w.length := by
                  cases hwc : w with
                  | nil => exact absurd hwc hwne
                  | cons _ _ => simp
                simp only [List.length_cons] at h2l hlen
                omega
              have hih := ih x2 hx2len hx2head hx2last
              cases hsx2 : splitWs x2 with
              | nil =>
                  exfalso
                  cases hx2c : x2 with
                  | nil => exact hx2ne hx2c
                  | cons g tl =>
                      have hg : isWs g = false := hx2head g (by rw [hx2c]; rfl)
                      have : splitWsGo [] (g :: tl) = splitWsGo [g] tl := by
                        rw [splitWsGo, if_neg (by simpa using hg)]
                      have hne2 := splitWsGo_ne_nil tl [g] (List.cons_ne_nil _ _)
                      rw [hx2c] at hsx2
                      unfold splitWs at hsx2
                      rw [this] at hsx2
                      exact hne2 hsx2
              | cons s ss =>
                  rw [show splitWsGo [] x2 = splitWs x2 from rfl, hsx2]
                  rw [show joinSp (w :: s :: ss) = w ++ ' ' :: joinSp (s :: ss) from rfl]
                  rw [← hsx2, hih]

/-- Pointwise-fixed maps are the identity. -/
theorem map_eq_self_of {f : Char → Char} :
    ∀ (l : Str), (∀ c ∈ l, f c = c) → l.map f = l := by
  intro l
  induction l with
  | nil => intro _; rfl
  | cons c cs ih =>
      intro h
      rw [List.map_cons, h c (List.mem_cons_self _ _),
        ih (fun x hx => h x (List.mem_cons_of_mem _ hx))]

/-- A string without whitespace at either end is fixed by strip. -/
theorem pyStrip_eq_self_of {x : Str}
    (h1 : ∀ c, x.head? = some c → isWs c = false)
    (h2 : ∀ c, x.getLast? = some c → isWs c = false) : pyStrip x = x := by
  unfold pyStrip rstrip lstrip
  have hrev : x.reverse.dropWhile isWs = x.reverse :=
    dropWhile_eq_self_of_head (fun c hc => h2 c (by rwa [List.head?_reverse] at hc))
  rw [hrev, List.reverse_reverse]
  exact dropWhile_eq_self_of_head h1

/-- The join of nonempty words is nonempty. -/
theorem joinSp_ne_nil {t : Str} (ht : t ≠ []) (ts : List Str) : joinSp (t :: ts) ≠ [] := by
  cases ts with
  | nil => exact ht
  | cons t2 ts2 =>
      show t ++ ' ' :: joinSp (t2 :: ts2) ≠ []
      simp

/-- The join of nonempty whitespace-free words starts with a word character. -/
theorem joinSp_head (ts : List Str)
    (hts : ∀ w ∈ ts, w ≠ [] ∧ ∀ c ∈ w, isWs c = false) :
    ∀ c, (joinSp ts).head? = some c → isWs c = false := by
  intro c hc
  cases ts with
  | nil => simp [joinSp] at hc
  | cons t ts' =>
      obtain ⟨htne, htws⟩ := hts t (List.mem_cons_self _ _)
      cases ht : t with
      | nil => exact absurd ht htne
      | cons a t2 =>
          subst ht
          cases ts' with
          | nil =>
              injection hc with hc
              subst hc
              exact htws _ (List.mem_cons_self _ _)
          | cons t2' ts2 =>
              rw [show joinSp ((a :: t2) :: t2' :: ts2) =
                  (a :: t2) ++ ' ' :: joinSp (t2' :: ts2) from rfl] at hc
              injection hc with hc
              subst hc
              exact htws _ (List.mem_cons_self _ _)

/-- The join of nonempty whitespace-free words ends with a word character. -/
theorem joinSp_getLast :
    ∀ (ts : List Str), (∀ w ∈ ts, w ≠ [] ∧ ∀ c ∈ w, isWs c = false) →
      ∀ c, (joinSp ts).getLast? = some c → isWs c = false := by
  intro ts
  induction ts with
  | nil => intro _ c hc; simp [joinSp] at hc
  | cons t ts' ih =>
      intro hts c hc
      obtain ⟨htne, htws⟩ := hts t (List.mem_cons_self _ _)
      cases ts' with
      | nil => exact htws c (mem_of_getLast? hc)
      | cons t2 ts2 =>
          rw [show joinSp (t :: t2 :: ts2) = t ++ ' ' :: joinSp (t2 :: ts2) from rfl] at hc
          rw [List.getLast?_append] at hc
          have hj : joinSp (t2 :: ts2) ≠ [] :=
            joinSp_ne_nil (hts t2 (List.mem_cons_of_mem _ (List.mem_cons_self _ _))).1 ts2
          cases hjs : joinSp (t2 :: ts2) with
          | nil => exact absurd hjs hj
          | cons g gs =>
              rw [hjs, List.getLast?_cons_cons] at hc
              have hsome : (g :: gs).getLast? ≠ none := by
                cases gs with
                | nil => simp
                | cons g2 gs2 => simp [List.getLast?_cons_cons]
              cases hg : (g :: gs).getLast? with
              | none => exact absurd hg hsome
              | some y =>
                  rw [hg] at hc
                  injection hc with hc
                  subst hc
                  refine ih (fun w hw => hts w (List.mem_cons_of_mem _ hw)) _ ?_
                  rw [hjs, hg]

/-- The normalized neighborhood has no whitespace at either end, so the final
string strip of DataCleaner.clean step 11 leaves it unchanged. -/
theorem pyStrip_normNeighborhood (v : Str) :
    pyStrip (normNeighborhood v) = normNeighborhood v := by
  have hts := splitWsGo_words (pyStrip ((v.map upChar).map undToSp)) [] (by simp)
  exact pyStrip_eq_self_of (joinSp_head _ hts) (joinSp_getLast _ hts)

/-- C9: _norm_neighborhood computes exactly the described normalization
(uppercase, underscores to spaces, strip, collapse whitespace runs), it is
idempotent, and every neighborhood value in a cleaned table is one of its
fixed points, so re-running the cleaning normalization changes nothing. -/
theorem c9_norm_neighborhood_idem (v : Str) :
    normNeighborhood v = describedNormNeighborhood v ∧
    normNeighborhood (normNeighborhood v) = normNeighborhood v ∧
    (∀ (files : List (List RawRow)) (out : List CRow) (r : CRow),
      clean files = Except.ok out → r ∈ out →
      normNeighborhood r.neighborhood = r.neighborhood) := by
  have hidem : ∀ (x : Str), normNeighborhood (normNeighborhood x) = normNeighborhood x := by
    intro x
    have hts := splitWsGo_words (pyStrip ((x.map upChar).map undToSp)) [] (by simp)
    have hchar : ∀ c ∈ normNeighborhood x, npChar c = c := by
      intro c hc
      unfold normNeighborhood at hc
      rcases mem_joinSp _ c hc with rfl | ⟨w, hw, hcw⟩
      · exact npChar_space
      · rcases mem_splitWsGo _ [] w c hw hcw with h1 | h1
        · have h2 : c ∈ (x.map upChar).map undToSp := mem_pyStrip h1
          rw [map_npChar] at h2
          obtain ⟨c0, _, rfl⟩ := List.mem_map.mp h2
          exact npChar_idem c0
        · simp at h1
    calc normNeighborhood (normNeighborhood x)
        = joinSp (splitWs (pyStrip (((normNeighborhood x).map upChar).map undToSp))) := rfl
      _ = joinSp (splitWs (pyStrip ((normNeighborhood x).map npChar))) := by rw [map_npChar]
      _ = joinSp (splitWs (pyStrip (normNeighborhood x))) := by
            rw [map_eq_self_of _ hchar]
      _ = joinSp (splitWs (normNeighborhood x)) := by rw [splitWs_pyStrip]
      _ = joinSp (splitWs (pyStrip ((x.map upChar).map undToSp))) := by
            rw [show splitWs (normNeighborhood x) =
                splitWs (pyStrip ((x.map upChar).map undToSp)) from
              splitWs_joinSp _ hts]
      _ = normNeighborhood x := rfl
  refine ⟨?_, hidem v, ?_⟩
  · exact joinSp_splitWs_eq_collapse (pyStrip ((v.map upChar).map undToSp)).length _ le_rfl
      (fun c h => pyStrip_head h) (fun c h => pyStrip_getLast h)
  · intro files out r hclean hr
    unfold clean at hclean
    cases hdl : deLoad files with
    | none => rw [hdl] at hclean; exact absurd hclean (by simp)
    | some rows =>
        rw [hdl] at hclean
        have hout : cleanRows rows = out := by injection hclean
        subst hout
        unfold cleanRows at hr
        obtain ⟨m, hm, rfl⟩ := List.mem_map.mp hr
        obtain ⟨r', _, hm'⟩ := List.mem_filterMap.mp hm
        have hnb : m.neighborhood = normNeighborhood r'.neighborhood := by
          unfold toMid at hm'
          split at hm'
          next => simp at hm'
          next p hp =>
            split at hm'
            next h0 =>
              split at hm'
              next => simp at hm'
              next dt hd =>
                injection hm' with hm'
                subst hm'
                rfl
            next h0 => simp at hm'
        show normNeighborhood (pyStrip m.neighborhood) = pyStrip m.neighborhood
        rw [hnb, pyStrip_normNeighborhood]
        exact hidem r'.neighborhood

/-- Witness for C9: idempotence at a concrete string and fixed-point of the
neighborhood value in a concrete cleaned table. -/
theorem c9_norm_neighborhood_idem_witness :
    normNeighborhood (normNeighborhood (("  a_b   c ").toList)) =
      normNeighborhood (("  a_b   c ").toList) ∧
    normNeighborhood ((cleanRows [exRawRow]).headD dummyCRow).neighborhood =
      ((cleanRows [exRawRow]).headD dummyCRow).neighborhood :=
  ⟨(c9_norm_neighborhood_idem (("  a_b   c ").toList)).2.1,
   (c9_norm_neighborhood_idem []).2.2 [[exRawRow]] (cleanRows [exRawRow]) _ rfl (by decide)⟩

/-! ## Year-over-year change lemmas -/

/-- pct_change with no prior value is filled with 0. -/
theorem pctChangeVal_none (m : Option ℚ) : pctChangeVal m none = 0 := by
  cases m <;> rfl

/-- The median of a nonempty group exists. -/
theorem pandasMedian_isSome {l : List ℚ} (h : l ≠ []) : ∃ m, pandasMedian l = some m := by
  unfold pandasMedian
  have hn : (l.insertionSort (fun a b => a ≤ b)).length ≠ 0 := by
    rw [List.Perm.length_eq (List.perm_insertionSort _ l)]
    simpa using h
  rw [if_neg hn]
  by_cases hodd : (l.insertionSort (fun a b => a ≤ b)).length % 2 = 1
  · rw [if_pos hodd]; exact ⟨_, rfl⟩
  · rw [if_neg hodd]; exact ⟨_, rfl⟩

/-- The median of a group of positive values is positive. -/
theorem pandasMedian_pos {l : List ℚ} {m : ℚ} (hpos : ∀ x ∈ l, 0 < x)
    (h : pandasMedian l = some m) : 0 < m := by
  unfold pandasMedian at h
  have hsorted : ∀ x ∈ l.insertionSort (fun a b => a ≤ b), 0 < x := by
    intro x hx
    exact hpos x ((List.mem_insertionSort _).mp hx)
  set xs := l.insertionSort (fun a b => a ≤ b) with hxs
  by_cases hz : xs.length = 0
  · rw [if_pos hz] at h; simp at h
  · rw [if_neg hz] at h
    have hlt1 : xs.length / 2 < xs.length := by omega
    have hget1 : xs.getD (xs.length / 2) 0 ∈ xs := by
      rw [List.getD_eq_get _ _ hlt1]
      exact List.get_mem _ _ _
    by_cases hodd : xs.length % 2 = 1
    · rw [if_pos hodd] at h
      injection h with h
      subst h
      exact hsorted _ hget1
    · rw [if_neg hodd] at h
      injection h with h
      subst h
      have hlt2 : xs.length / 2 - 1 < xs.length := by omega
      have hget2 : xs.getD (xs.length / 2 - 1) 0 ∈ xs := by
        rw [List.getD_eq_get _ _ hlt2]
        exact List.get_mem _ _ _
      have h1 := hsorted _ hget1
      have h2 := hsorted _ hget2
      linarith

/-- Sorted-without-duplicates lists are strictly increasing. -/
theorem pairwise_lt_of_sorted_nodup {l : List Int}
    (hs : l.Pairwise (fun a b => a ≤ b)) (hn : l.Nodup) :
    l.Pairwise (fun a b => a < b) :=
  (hs.and hn).imp (fun h => lt_of_le_of_ne h.1 h.2)

/-- The distinct sorted year list of a borough is strictly increasing. -/
theorem yearsOfBorough_pairwise (mids : List MidRow) (b : Str) :
    (yearsOfBorough mids b).Pairwise (fun a b => a < b) := by
  unfold yearsOfBorough
  refine pairwise_lt_of_sorted_nodup ?_ ?_
  · exact List.sorted_insertionSort _ _
  · exact ((List.perm_insertionSort _ _).nodup_iff).mpr (nodup_dedupKeep1_id _)

/-- A minimum member of a strictly increasing list is its head. -/
theorem head_eq_of_min {l : List Int} {t : Int} (hp : l.Pairwise (fun a b => a < b))
    (hmem : t ∈ l) (hmin : ∀ u ∈ l, t ≤ u) : ∃ tl, l = t :: tl := by
  cases l with
  | nil => simp at hmem
  | cons b tl =>
      rcases List.mem_cons.mp hmem with rfl | hmem'
      · exact ⟨tl, rfl⟩
      · have hbt : b < t := (List.pairwise_cons.mp hp).1 t hmem'
        have hle : t ≤ b := hmin b (List.mem_cons_self _ _)
        omega

/-- Looking up the first year of a borough in the pct_change walk gives 0. -/
theorem yoyWalk_lookup_first (med : Int → Option ℚ) (t : Int) (tl : List Int) :
    List.lookup t (yoyWalk med none (t :: tl)) = some 0 := by
  rw [yoyWalk]
  simp [List.lookup, pctChangeVal_none]

/-- Looking up a year whose predecessor year is also observed gives the
pct_change against the predecessor's median. -/
theorem yoyWalk_lookup_consec (med : Int → Option ℚ) (t : Int) :
    ∀ (ys : List Int) (pm : Option ℚ), ys.Pairwise (fun a b => a < b) →
      (t - 1) ∈ ys → t ∈ ys →
      List.lookup t (yoyWalk med pm ys) = some (pctChangeVal (med t) (med (t - 1))) := by
  intro ys
  induction ys with
  | nil => intro pm _ h _; simp at h
  | cons y tl ih =>
      intro pm hp hmem1 hmemt
      have hyt : ∀ u ∈ tl, y < u := (List.pairwise_cons.mp hp).1
      have hptl : tl.Pairwise (fun a b => a < b) := (List.pairwise_cons.mp hp).2
      by_cases hy : y = t - 1
      · have htin : t ∈ tl := by
          rcases List.mem_cons.mp hmemt with rfl | h
          · omega
          · exact h
        cases htl : tl with
        | nil => rw [htl] at htin; simp at htin
        | cons u tl' =>
            have hut : u = t := by
              rw [htl] at htin
              rcases List.mem_cons.mp htin with rfl | h
              · rfl
              · have h1 : y < u := hyt u (by rw [htl]; exact List.mem_cons_self _ _)
                have h2 : u < t := by
                  rw [htl] at hptl
                  exact (List.pairwise_cons.mp hptl).1 t h
                omega
            subst hut
            subst htl
            rw [yoyWalk, yoyWalk]
            have hne2 : (u == u - 1) = false := by
              have h : u ≠ u - 1 := by omega
              simp [h]
            simp [List.lookup, hy, hne2]
      · have h1 : t - 1 ∈ tl := by
          rcases List.mem_cons.mp hmem1 with h | h
          · exact absurd h.symm hy
          · exact h
        have h2 : t ∈ tl := by
          rcases List.mem_cons.mp hmemt with rfl | h
          · have := hyt _ h1
            omega
          · exact h
        have hty : (t == y) = false := by
          have : y < t := hyt t h2
          have : t ≠ y := by omega
          simp [this]
        rw [yoyWalk]
        simp only [List.lookup, hty]
        exact ih (med y) hptl h1 h2

/-- Years carried by a borough's rows in a cleaned table. -/
def boroughRowsYears (out : List CRow) (nm : Str) : List Int :=
  (out.filter (fun r => boroughNameOf r.borough == some nm)).map (fun r => r.year)

/-- Median sale price of a borough's rows of one year in a cleaned table. -/
def medianOfBoroughYear (out : List CRow) (nm : Str) (y : Int) : Option ℚ :=
  pandasMedian
    ((out.filter (fun r => boroughNameOf r.borough == some nm && r.year == y)).map
      (fun r => r.salePrice))

/-- The borough-year list of the finalized table is that of the mid table. -/
theorem boroughRowsYears_cleanRows (mids : List MidRow) (nm : Str) :
    boroughRowsYears (mids.map (finalizeRow mids)) nm =
      (mids.filter (fun m => boroughNameOf m.borough == some nm)).map (fun m => m.year) := by
  unfold boroughRowsYears
  rw [List.filter_map, List.map_map]
  rfl

/-- The borough-year median of the finalized table is that of the mid table. -/
theorem medianOfBoroughYear_cleanRows (mids : List MidRow) (nm : Str) (y : Int) :
    medianOfBoroughYear (mids.map (finalizeRow mids)) nm y =
      pandasMedian (medPrices mids nm y) := by
  unfold medianOfBoroughYear medPrices
  rw [List.filter_map, List.map_map]
  rfl

/-- C3: in a cleaned table, a row of a named borough carries MEDIAN PRICE
YOY PCT exactly 0 when its year is the borough's first observed year, and
the exact percent formula against the previous year's borough median when
the previous calendar year is also observed. -/
theorem c3_yoy_first_zero_and_formula
    (files : List (List RawRow)) (out : List CRow) (r : CRow) (nm : Str)
    (hclean : clean files = Except.ok out) (hr : r ∈ out)
    (hnm : boroughNameOf r.borough = some nm) :
    ((∀ u ∈ boroughRowsYears out nm, r.year ≤ u) → r.medianPriceYoyPct = some 0) ∧
    (r.year - 1 ∈ boroughRowsYears out nm →
      ∃ mt mp, medianOfBoroughYear out nm r.year = some mt ∧
        medianOfBoroughYear out nm (r.year - 1) = some mp ∧
        r.medianPriceYoyPct = some (100 * (mt - mp) / mp)) := by
  unfold clean at hclean
  cases hdl : deLoad files with
  | none => rw [hdl] at hclean; exact absurd hclean (by simp)
  | some rows =>
      rw [hdl] at hclean
      have hout : cleanRows rows = out := by injection hclean
      subst hout
      set mids := ((dedupKeep1 rawKey rows).filter (fun r => !(isHeaderRow r))).filterMap toMid
        with hmids
      have hout_eq : cleanRows rows = mids.map (finalizeRow mids) := rfl
      rw [hout_eq] at hr ⊢
      obtain ⟨m, hm, rfl⟩ := List.mem_map.mp hr
      have hnm' : boroughNameOf m.borough = some nm := hnm
      have hpos : ∀ (y : Int) (x : ℚ), x ∈ medPrices mids nm y → 0 < x := by
        intro y x hx
        unfold medPrices at hx
        obtain ⟨m', hm', rfl⟩ := List.mem_map.mp hx
        have hm'2 := (List.mem_filter.mp hm').1
        obtain ⟨r', _, hr'⟩ := List.mem_filterMap.mp hm'2
        exact toMid_pos hr'
      have hmemyear : m.year ∈ yearsOfBorough mids nm := by
        unfold yearsOfBorough
        rw [List.mem_insertionSort, mem_dedupKeep1_id]
        refine List.mem_map.mpr ⟨m, List.mem_filter.mpr ⟨hm, by simp [hnm']⟩, rfl⟩
      have hyoy : (finalizeRow mids m).medianPriceYoyPct =
          (yoySeries mids nm).lookup m.year := by
        show yoyOf mids m = _
        unfold yoyOf
        rw [hnm']
      have hyears_eq := boroughRowsYears_cleanRows mids nm
      constructor
      · intro hmin
        have hmin' : ∀ u ∈ yearsOfBorough mids nm, m.year ≤ u := by
          intro u hu
          apply hmin
          rw [hyears_eq]
          unfold yearsOfBorough at hu
          rw [List.mem_insertionSort, mem_dedupKeep1_id] at hu
          exact hu
        obtain ⟨tl, htl⟩ :=
          head_eq_of_min (yearsOfBorough_pairwise mids nm) hmemyear hmin'
        rw [hyoy]
        unfold yoySeries
        rw [htl]
        exact yoyWalk_lookup_first _ _ _
      · intro hprev
        have hprev' : m.year - 1 ∈ yearsOfBorough mids nm := by
          unfold yearsOfBorough
          rw [List.mem_insertionSort, mem_dedupKeep1_id]
          rw [hyears_eq] at hprev
          exact hprev
        have hgrp : ∀ y ∈ yearsOfBorough mids nm, medPrices mids nm y ≠ [] := by
          intro y hy
          unfold yearsOfBorough at hy
          rw [List.mem_insertionSort, mem_dedupKeep1_id] at hy
          obtain ⟨m', hm', hy'⟩ := List.mem_map.mp hy
          have hf := List.mem_filter.mp hm'
          intro hc
          have hx : m'.salePrice ∈ medPrices mids nm y := by
            unfold medPrices
            refine List.mem_map.mpr ⟨m', List.mem_filter.mpr ⟨hf.1, ?_⟩, rfl⟩
            simp only [Bool.and_eq_true]
            exact ⟨hf.2, by simp [hy']⟩
          rw [hc] at hx
          simp at hx
        obtain ⟨mt, hmt⟩ := pandasMedian_isSome (hgrp _ hmemyear)
        obtain ⟨mp, hmp⟩ := pandasMedian_isSome (hgrp _ hprev')
        have hmppos : 0 < mp := pandasMedian_pos (fun x hx => hpos _ x hx) hmp
        refine ⟨mt, mp, ?_, ?_, ?_⟩
        · rw [medianOfBoroughYear_cleanRows]
          exact hmt
        · rw [medianOfBoroughYear_cleanRows]
          exact hmp
        · rw [hyoy]
          unfold yoySeries
          rw [yoyWalk_lookup_consec _ _ _ none (yearsOfBorough_pairwise mids nm)
            hprev' hmemyear]
          simp only [hmt, hmp]
          show some ((mt / mp - 1) * 100) = some (100 * (mt - mp) / mp)
          rw [show (mt / mp - 1) * 100 = 100 * (mt - mp) / mp from by
            field_simp
            ring]

/-- Manhattan 2020 fixture row. -/
def c3rowA : RawRow := { exRawRow with saleDate := ("2020-05-01").toList }

/-- Manhattan 2021 fixture row. -/
def c3rowB : RawRow :=
  { exRawRow with saleDate := ("2021-06-03").toList, salePrice := ("150").toList }

/-- Fixture table with one borough observed in 2020 and 2021. -/
def c3files : List (List RawRow) := [[c3rowA, c3rowB]]

/-- Witness for C3 at the fixture: the 2020 row gets exactly 0 and the 2021
row gets the percent formula against 2020. -/
theorem c3_yoy_first_zero_and_formula_witness :
    ((cleanRows [c3rowA, c3rowB]).getD 0 dummyCRow).medianPriceYoyPct = some 0 ∧
    (∃ mt mp,
      medianOfBoroughYear (cleanRows [c3rowA, c3rowB]) (("MANHATTAN").toList)
        (((cleanRows [c3rowA, c3rowB]).getD 1 dummyCRow).year) = some mt ∧
      medianOfBoroughYear (cleanRows [c3rowA, c3rowB]) (("MANHATTAN").toList)
        (((cleanRows [c3rowA, c3rowB]).getD 1 dummyCRow).year - 1) = some mp ∧
      ((cleanRows [c3rowA, c3rowB]).getD 1 dummyCRow).medianPriceYoyPct =
        some (100 * (mt - mp) / mp)) :=
  ⟨(c3_yoy_first_zero_and_formula c3files (cleanRows [c3rowA, c3rowB])
      ((cleanRows [c3rowA, c3rowB]).getD 0 dummyCRow) (("MANHATTAN").toList)
      rfl (by decide) (by decide)).1 (by decide),
   (c3_yoy_first_zero_and_formula c3files (cleanRows [c3rowA, c3rowB])
      ((cleanRows [c3rowA, c3rowB]).getD 1 dummyCRow) (("MANHATTAN").toList)
      rfl (by decide) (by decide)).2 (by decide)⟩
